import Mathlib

/-!
Verification of the tinyquery in-memory SQL-subset engine.

This file gives a shallow embedding of the engine's data model and of the
functions the specification's claims are about: the runtime binary operators
(runtime.py), the lexer actions (lexer.py), the compile-time name resolution
(typed_ast.py) and the columnar evaluator (tinyquery.py).  Raw cell values are
modelled by `Value` (the null marker is an explicit constructor), columns and
contexts mirror the `Column`/`Context` classes, and fallible code paths
(dictionary lookups, assertions, Python type errors) return `Except`.

The engine is Python 2 code, so where behaviour of the ambient language leaks
into the program's semantics it is embedded faithfully: `None == 1` is `False`
(not null), `None + 1` raises `TypeError`, `sum` over a list containing `None`
raises `TypeError`, `hash(-1) == hash(-2) == -2` in CPython, and dictionary key
lookup compares hashes first and then calls `__eq__`, treating any truthy
return value as equality.

Parts of the pipeline that belong to modules not present in the source tree
(the compiler / type-context builders) are modelled from the specification and
are marked as such in their doc comments.
-/

set_option maxRecDepth 4000

namespace TinyQuery

/-- The column types of the tq_types module (INT, BOOL, STRING). -/
inductive TqType where
  | int
  | bool
  | string
deriving DecidableEq, Repr

/-- A raw cell value.  Any cell may hold the null marker (`Value.null`,
Python's `None`) regardless of the column's declared type. -/
inductive Value where
  | null
  | int (n : Int)
  | bool (b : Bool)
  | str (s : String)
deriving DecidableEq, Repr

/-- Python numeric coercion: ints are themselves, booleans coerce to 0/1
(`True == 1` in Python); strings and `None` are not numbers. -/
def Value.toNum : Value → Option Int
  | .int n => some n
  | .bool b => some (if b then 1 else 0)
  | _ => none

/-- Python 2 `a + b` as applied by `ArithmeticOperator.evaluate`
(runtime.py line 63, `lambda a, b: a + b`): numbers add, strings concatenate,
and `None` as either operand raises `TypeError`. -/
def py_add (a b : Value) : Except String Value :=
  match a.toNum, b.toNum with
  | some x, some y => .ok (.int (x + y))
  | _, _ =>
    match a, b with
    | .str s, .str t => .ok (.str (s ++ t))
    | _, _ => .error "TypeError: unsupported operand types for +"

/-- Python 2 `a - b` (runtime.py line 64). -/
def py_sub (a b : Value) : Except String Value :=
  match a.toNum, b.toNum with
  | some x, some y => .ok (.int (x - y))
  | _, _ => .error "TypeError: unsupported operand types for -"

/-- Python 2 `a * b` (runtime.py line 65), restricted to numeric operands. -/
def py_mul (a b : Value) : Except String Value :=
  match a.toNum, b.toNum with
  | some x, some y => .ok (.int (x * y))
  | _, _ => .error "TypeError: unsupported operand types for *"

/-- Python 2 `a / b` (runtime.py line 66): integer division floors, and a
zero divisor raises. -/
def py_div (a b : Value) : Except String Value :=
  match a.toNum, b.toNum with
  | some x, some y =>
    if y = 0 then .error "ZeroDivisionError: integer division or modulo by zero"
    else .ok (.int (Int.fdiv x y))
  | _, _ => .error "TypeError: unsupported operand types for /"

/-- Python 2 `a % b` (runtime.py line 67): the result carries the divisor's
sign (floor-division remainder), and a zero divisor raises. -/
def py_mod (a b : Value) : Except String Value :=
  match a.toNum, b.toNum with
  | some x, some y =>
    if y = 0 then .error "ZeroDivisionError: integer division or modulo by zero"
    else .ok (.int (Int.fmod x y))
  | _, _ => .error "TypeError: unsupported operand types for %"

/-- Python 2 cross-type comparison as used by the `ComparisonOperator`
lambdas (runtime.py lines 68-73): numbers compare by value (booleans coerce),
strings compare lexicographically, `None` sorts below everything, and numbers
sort below strings (CPython 2 orders mixed types by type name). -/
def pyCmp (a b : Value) : Ordering :=
  match a.toNum, b.toNum with
  | some x, some y => compare x y
  | _, _ =>
    match a, b with
    | .str s, .str t => compare s t
    | .null, .null => .eq
    | .null, _ => .lt
    | _, .null => .gt
    | .str _, _ => .gt
    -- remaining pairs are numeric/numeric, already handled by the outer match
    | _, .str _ => .lt
    | _, _ => .eq

/-- Python 2 `a == b` (runtime.py line 68): a genuine boolean, never null. -/
def py_eq (a b : Value) : Value := .bool (pyCmp a b == .eq)

/-- Python 2 `a != b` (runtime.py line 69). -/
def py_ne (a b : Value) : Value := .bool (!(pyCmp a b == .eq))

/-- Python 2 `a > b` (runtime.py line 70). -/
def py_gt (a b : Value) : Value := .bool (pyCmp a b == .gt)

/-- Python 2 `a < b` (runtime.py line 71). -/
def py_lt (a b : Value) : Value := .bool (pyCmp a b == .lt)

/-- Python 2 `a >= b` (runtime.py line 72). -/
def py_ge (a b : Value) : Value := .bool (!(pyCmp a b == .lt))

/-- Python 2 `a <= b` (runtime.py line 73). -/
def py_le (a b : Value) : Value := .bool (!(pyCmp a b == .gt))

/-! ## Lexer (lexer.py) -/

/-- Python `str.lower()`: lowercase every character (the identifier charset
is ASCII, where Lean's `Char.toLower` agrees with Python). -/
def pyLower (s : String) : String := ⟨s.data.map Char.toLower⟩

/-- The reserved-word map of lexer.py lines 8-12: lowercased identifier text
to token type.  The source file reserves exactly three words. -/
def reserved_words : List (String × String) :=
  [("select", "SELECT"), ("from", "FROM"), ("where", "WHERE")]

/-- The `t_ID` lexer action (lexer.py lines 55-60): lowercase the matched
identifier text, then classify it as a reserved word if the lowercased text is
in `reserved_words` and as an `ID` token otherwise.  Returns (token type,
token value). -/
def t_ID (s : String) : String × String :=
  let v := pyLower s
  ((reserved_words.lookup v).getD "ID", v)

/-- The reserved-word set the source actually checks (spec-side restatement,
for comparison with `t_ID`). -/
def amendedReservedWords : List String := ["select", "from", "where"]

/-- The reserved-word set named by the claim (the full dialect's keyword
list); the source's `reserved_words` covers only three of these. -/
def claimedReservedWords : List String :=
  ["select", "from", "where", "group", "by", "join", "on", "as", "and", "or",
   "not", "is", "null", "in", "distinct", "true", "false"]

/-- Python `int()` applied to the text matched by the `t_NUMBER` rule
(lexer.py line 47): on a non-empty all-digit string it always succeeds and
returns the denoted integer (Python integers are unbounded, so the
`ValueError` branch cannot fire for such input). -/
def pyIntParse (s : String) : Except String Int :=
  if s.data ≠ [] ∧ s.data.all (fun c => c.isDigit) then
    .ok (s.data.foldl (fun acc c => acc * 10 + ((c.toNat : Int) - 48)) 0)
  else .error "ValueError: invalid literal for int()"

/-- The `t_NUMBER` lexer action (lexer.py lines 44-51): parse the digit text
with `int()`; the fallback branch replaces the value with 0 if parsing raised
`ValueError`. -/
def t_NUMBER (s : String) : Int :=
  match pyIntParse s with
  | .ok n => n
  | .error _ => 0

/-- Positional denotation of a decimal digit string: the most significant
digit is weighted by 10 to the number of remaining digits. -/
def decimalValue : List Char → Int
  | [] => 0
  | c :: rest => ((c.toNat : Int) - 48) * 10 ^ rest.length + decimalValue rest

/-! ## Evaluator data model (tinyquery.py) -/

/-- A single column of data: a declared type plus raw values
(tinyquery.py `Column`). -/
structure Column where
  type : TqType
  values : List Value
deriving DecidableEq, Repr

/-- The columns accessible while evaluating an expression
(tinyquery.py `Context`): a row count, an ordered mapping from column name to
`Column`, and an optional aggregate context entered by aggregate functions. -/
inductive Context where
  | mk (num_rows : Nat) (columns : List (String × Column))
      (aggregate_context : Option Context)

def Context.num_rows : Context → Nat
  | .mk n _ _ => n

def Context.columns : Context → List (String × Column)
  | .mk _ cols _ => cols

def Context.aggregate_context : Context → Option Context
  | .mk _ _ agg => agg

/-- A loaded table (tinyquery.py `Table`): metadata plus column contents. -/
structure Table where
  name : String
  num_rows : Nat
  columns : List (String × Column)
deriving DecidableEq, Repr

/-- Table invariant enforced by `Table.__init__`: every column holds exactly
`num_rows` values, and (being a Python dict) column names are distinct. -/
def TableWF (t : Table) : Prop :=
  (∀ p ∈ t.columns, p.2.values.length = t.num_rows) ∧
  (t.columns.map Prod.fst).Nodup

instance : DecidablePred TableWF := fun t =>
  decidable_of_iff
    ((∀ p ∈ t.columns, p.2.values.length = t.num_rows) ∧
      (t.columns.map Prod.fst).Nodup) Iff.rfl

/-- Insertion into a Python (ordered) dictionary: an existing key keeps its
position and gets the new value, a new key is appended at the end. -/
def ordInsert (d : List (String × α)) (k : String) (v : α) :
    List (String × α) :=
  if d.any (fun e => e.1 == k) then
    d.map (fun e => if e.1 == k then (k, v) else e)
  else d ++ [(k, v)]

/-- Build an ordered dictionary from a list of key/value pairs, later entries
overwriting earlier ones in place (Python `OrderedDict(pairs)`). -/
def ordDictOfList (l : List (String × α)) : List (String × α) :=
  l.foldl (fun d kv => ordInsert d kv.1 kv.2) []

/-- The `Context.__init__` checks (tinyquery.py lines 255-260): every column
must hold exactly `num_rows` values, else an `AssertionError` is raised.  The
row count is compared as a Python int, hence the `Int` argument. -/
def mkContextChecked (n : Int) (cols : List (String × Column))
    (agg : Option Context) : Except String Context :=
  if cols.all (fun p => (p.2.values.length : Int) == n) then
    .ok (.mk n.toNat cols agg)
  else .error "AssertionError: column row count mismatch"

/-- Dictionary lookup `context.columns[name]`; a missing key raises
`KeyError`. -/
def colLookup (ctx : Context) (name : String) : Except String Column :=
  match ctx.columns.find? (fun p => p.1 == name) with
  | some p => .ok p.2
  | none => .error ("KeyError: " ++ name)

/-- Typed expression AST (typed_ast.py), restricted to the node kinds the
claims exercise: literals and column references.  Each node carries its
checked result type. -/
inductive Expr where
  | lit (value : Value) (type : TqType)
  | col (column : String) (type : TqType)
deriving DecidableEq, Repr

def Expr.type : Expr → TqType
  | .lit _ ty => ty
  | .col _ ty => ty

/-- A typed select field (typed_ast.py `SelectField`): an expression plus its
resolved output alias. -/
structure SelectField where
  expr : Expr
  alias' : String
deriving DecidableEq, Repr

/-- Expression evaluation (tinyquery.py `evaluate_expr` dispatch):
`evaluate_Literal` replicates the value per row, `evaluate_ColumnRef` reads
the column's values out of the context. -/
def evaluate_expr (e : Expr) (ctx : Context) : Except String (List Value) :=
  match e with
  | .lit v _ => .ok (List.replicate ctx.num_rows v)
  | .col name _ => do
    let c ← colLookup ctx name
    pure c.values

/-- tinyquery.py `evaluate_select_field`: the field's alias paired with a
column of the evaluated results, typed by the expression's type. -/
def evaluate_select_field (f : SelectField) (ctx : Context) :
    Except String (String × Column) := do
  let results ← evaluate_expr f.expr ctx
  pure (f.alias', Column.mk f.expr.type results)

/-- tinyquery.py `evaluate_select_fields`: one output column per field,
collected into an ordered dict, with the source context's row count. -/
def evaluate_select_fields (fields : List SelectField) (ctx : Context) :
    Except String Context := do
  let pairs ← fields.mapM (fun f => evaluate_select_field f ctx)
  mkContextChecked ctx.num_rows (ordDictOfList pairs) none

/-- Python truthiness, as used by `itertools.compress`: `None` and `False`
are falsy, zero and the empty string are falsy, everything else truthy. -/
def pyTruthy : Value → Bool
  | .null => false
  | .bool b => b
  | .int n => !(n == 0)
  | .str s => !(s == "")

/-- itertools.compress: keep the values whose mask entry is truthy (the
shorter sequence ends the zip). -/
def compress (values mask : List Value) : List Value :=
  (values.zip mask).filterMap (fun p => if pyTruthy p.2 then some p.1 else none)

/-- Python `sum` over the tail of the mask column, starting from a running
total: booleans count as 1/0, ints add as themselves, but `None` (and
strings) raise `TypeError`. -/
def sumPyFrom (acc : Int) : List Value → Except String Int
  | [] => .ok acc
  | v :: t =>
    match v.toNum with
    | some x => sumPyFrom (acc + x) t
    | none => .error "TypeError: unsupported operand types for + in sum"

/-- Python `sum(mask)` (tinyquery.py line 330). -/
def sumPy (mask : List Value) : Except String Int := sumPyFrom 0 mask

/-- tinyquery.py `mask_context` (lines 315-330): assert the context has no
aggregate context, keep each column's values where the mask is truthy, and
construct a context whose row count is `sum(mask)`. -/
def mask_context (ctx : Context) (mask : List Value) : Except String Context :=
  if ctx.aggregate_context.isSome then
    .error "AssertionError: cannot mask a context with an aggregate context"
  else do
    let new_columns := ordDictOfList
      (ctx.columns.map
        (fun p => (p.1, Column.mk p.2.type (compress p.2.values mask))))
    let n ← sumPy mask
    mkContextChecked n new_columns none

/-- tinyquery.py `context_from_table` (lines 291-303): pair the type
context's column names with the table's columns in order; the row count is
read off the first column (`itervalues().next()` raises `StopIteration` on a
table with no columns). -/
def context_from_table (t : Table) (typeCtxNames : List String) :
    Except String Context :=
  match t.columns with
  | [] => .error "StopIteration"
  | c0 :: _ =>
    let new_columns := ordDictOfList (typeCtxNames.zip (t.columns.map Prod.snd))
    mkContextChecked c0.2.values.length new_columns none

/-- tinyquery.py `empty_context_from_select_fields`: zero rows, one empty
column per field alias. -/
def empty_context_from_select_fields (fields : List SelectField) :
    Except String Context :=
  mkContextChecked 0
    (ordDictOfList (fields.map (fun f => (f.alias', Column.mk f.expr.type []))))
    none

/-- tinyquery.py `empty_context_from_template`: zero rows, the same columns
as the given context but emptied. -/
def empty_context_from_template (ctx : Context) : Except String Context :=
  mkContextChecked 0
    (ctx.columns.map (fun p => (p.1, Column.mk p.2.type []))) none

/-- tinyquery.py `append_row_to_context` (lines 348-355): bump the
destination row count and append row `i` of the source to every destination
column (a destination column missing from the source raises `KeyError`, an
out-of-range row `IndexError`).  The destination is mutated in place, so no
constructor check runs. -/
def append_row_to_context (src : Context) (i : Nat) (dest : Context) :
    Except String Context := do
  let cols ← dest.columns.mapM
    (fun p => do
      let sc ← colLookup src p.1
      match sc.values.get? i with
      | some v => pure (p.1, Column.mk p.2.type (p.2.values ++ [v]))
      | none => Except.error "IndexError: list index out of range")
  pure (.mk (dest.num_rows + 1) cols dest.aggregate_context)

/-- Modelled from the spec: `type_context.TypeContext.short_column_name`
(the type_context module is not in the source tree).  A fully-qualified
column name `table.column` shortens to `column`; a name without a qualifier
is unchanged. -/
def shortColumnName (s : String) : String := (s.splitOn ".").getLastD s

/-- tinyquery.py `append_partial_context_to_context` (lines 358-378): add the
source's rows to the destination.  Source columns are re-keyed by short name
(a dict comprehension, so a later duplicate short name wins); each
destination column is extended with the matching source column's values, or
with one null per source row when no source column matches. -/
def append_partial_context_to_context (src dest : Context) : Context :=
  .mk (dest.num_rows + src.num_rows)
    (dest.columns.map
      (fun p =>
        (p.1,
          Column.mk p.2.type
            (p.2.values ++
              match (src.columns.foldl
                  (fun m q => ordInsert m (shortColumnName q.1) q.2.values)
                  []).find? (fun e => e.1 == p.1) with
              | some e => e.2
              | none => List.replicate src.num_rows Value.null))))
    dest.aggregate_context

/-- Modelled from the spec: the runtime-era `type_context.TypeContext` (its
module is not in the source tree) as used by the evaluator: an ordered
mapping from column name to type plus an optional aggregate marker, which
`empty_context_from_type_context` asserts to be absent. -/
structure TypeContextRT where
  columns : List (String × TqType)
  aggregate : Option Unit
deriving DecidableEq, Repr

/-- tinyquery.py `empty_context_from_type_context` (lines 306-312): assert no
aggregate context, then build a zero-row context with one empty column per
type-context column. -/
def empty_context_from_type_context (tc : TypeContextRT) :
    Except String Context :=
  if tc.aggregate.isSome then
    .error "AssertionError: aggregate context present"
  else
    mkContextChecked 0
      (ordDictOfList (tc.columns.map (fun p => (p.1, Column.mk p.2 []))))
      none

/-- tinyquery.py `eval_table_TableUnion` (lines 189-194), with the children
already evaluated to contexts: start from the empty context of the union's
type context and append every child in order. -/
def eval_table_TableUnion (tc : TypeContextRT) (children : List Context) :
    Except String Context := do
  let init ← empty_context_from_type_context tc
  pure (children.foldl (fun d s => append_partial_context_to_context s d) init)

/-- A value that is a genuine boolean (not null, not another type). -/
def isBoolV : Value → Bool
  | .bool _ => true
  | _ => false

/-- Count of mask entries that are definitely true (spec side: the rows a
`WHERE` filter must keep). -/
def countTrue : List Value → Nat
  | [] => 0
  | m :: ms => (if m == Value.bool true then 1 else 0) + countTrue ms

/-- Keep the values whose mask entry is definitely true, in order (spec
side: the surviving rows of a `WHERE` filter). -/
def keepTrue : List Value → List Value → List Value
  | v :: vs, m :: ms =>
    if m == Value.bool true then v :: keepTrue vs ms else keepTrue vs ms
  | _, _ => []

/-- Do all columns of a context hold exactly `num_rows` values? -/
def colsMatch : Context → Bool
  | .mk n cols _ => cols.all (fun p => p.2.values.length == n)

/-- The Context invariant of the claims: all columns share the row count, and
the aggregate context, when present, satisfies the same column condition and
has no nested aggregate context. -/
def contextWF (c : Context) : Bool :=
  colsMatch c &&
    (match c.aggregate_context with
     | none => true
     | some a => colsMatch a && a.aggregate_context.isNone)

/-- The context-producing operations of the evaluator, as one closed type so
the invariant can be stated once over all of them. -/
inductive EvalOp where
  | scan (t : Table) (typeCtxNames : List String)
  | maskRows (ctx : Context) (mask : List Value)
  | selectFields (fields : List SelectField) (ctx : Context)
  | groupEval (key group : Context)
  | rowAppend (src : Context) (i : Nat) (dest : Context)
  | unionAppend (src dest : Context)
  | emptyFromTemplate (ctx : Context)
  | emptyFromSelectFields (fields : List SelectField)
  | emptyFromTypeContext (tc : TypeContextRT)

/-- Run one evaluator operation.  `groupEval` is the construction
`Context(1, context_key.columns, group_context)` of `evaluate_groups`
(tinyquery.py line 89); the others dispatch to the functions above. -/
def applyOp : EvalOp → Except String Context
  | .scan t names => context_from_table t names
  | .maskRows ctx mask => mask_context ctx mask
  | .selectFields fields ctx => evaluate_select_fields fields ctx
  | .groupEval key group => mkContextChecked 1 key.columns (some group)
  | .rowAppend src i dest => append_row_to_context src i dest
  | .unionAppend src dest => pure (append_partial_context_to_context src dest)
  | .emptyFromTemplate ctx => empty_context_from_template ctx
  | .emptyFromSelectFields fields => empty_context_from_select_fields fields
  | .emptyFromTypeContext tc => empty_context_from_type_context tc

/-- Input conditions under which each operation runs in the evaluator: the
mutating appends require a well-formed destination, the union append a
source whose columns match its row count, and the group-evaluation context a
well-formed group sub-context without nested aggregate (it is built by
`empty_context_from_template` plus row appends). -/
def opInputsWF : EvalOp → Prop
  | .groupEval _ group =>
    colsMatch group = true ∧ group.aggregate_context = none
  | .rowAppend _ _ dest => contextWF dest = true
  | .unionAppend src dest => colsMatch src = true ∧ contextWF dest = true
  | _ => True

/-! ## Compile-time name resolution (typed_ast.py) -/

/-- A compile-time column reference (typed_ast.py `ColumnRef`): the resolved
fully-qualified column name and its type. -/
structure ColumnRefT where
  column : String
  type : TqType
deriving DecidableEq, Repr

/-- typed_ast.py `TypeContext`: an ordered mapping from fully-qualified
column name to type, an alias mapping from allowed short names to full
names, and the set of aliases that are ambiguous and must not resolve. -/
structure TypeContextC where
  columns : List (String × TqType)
  aliases : List (String × String)
  ambig_aliases : List String
deriving DecidableEq, Repr

/-- typed_ast.py `column_ref_for_name` (lines 33-43): a qualified column
resolves to itself; otherwise an alias resolves to its full name; otherwise
an ambiguous alias raises `CompileError` (ambiguous), and anything else
raises `CompileError` (not found). -/
def column_ref_for_name (tc : TypeContextC) (name : String) :
    Except String ColumnRefT :=
  match tc.columns.lookup name with
  | some ty => .ok ⟨name, ty⟩
  | none =>
    match tc.aliases.lookup name with
    | some full =>
      match tc.columns.lookup full with
      | some ty => .ok ⟨full, ty⟩
      | none => .error ("KeyError: " ++ full)
    | none =>
      if tc.ambig_aliases.contains name then
        .error ("CompileError: Ambiguous field: " ++ name)
      else
        .error ("CompileError: Field not found: " ++ name)

/-- Qualify a column name by its table (or alias) name, as in the docstring
of typed_ast.py `TypeContext`: column `value` of table `table` has full name
`table.value`. -/
def qualify (table col : String) : String := table ++ "." ++ col

/-- The fully-qualified columns of a list of sources (table name paired with
its ordered columns). -/
def qualifiedColumns (sources : List (String × List (String × TqType))) :
    List (String × TqType) :=
  (sources.map (fun s => s.2.map (fun c => (qualify s.1 c.1, c.2)))).join

/-- The table names of the sources that contain a column with the given
short name. -/
def sourcesWithShortName (sources : List (String × List (String × TqType)))
    (short : String) : List String :=
  (sources.filter (fun s => s.2.any (fun c => c.1 == short))).map Prod.fst

/-- The deduplicated short column names over all sources. -/
def shortNamesOf (sources : List (String × List (String × TqType))) :
    List String :=
  ((sources.map (fun s => s.2.map Prod.fst)).join).dedup

/-- Modelled from the spec: the type-context builder (the compiler and
type_context modules are not in the source tree).  Per spec section 3, the
context holds the qualified columns of every source, a short alias for each
short name present under exactly one qualifier, and marks as ambiguous every
short name present under two or more qualifiers. -/
def buildTypeContext (sources : List (String × List (String × TqType))) :
    TypeContextC :=
  { columns := qualifiedColumns sources
  , aliases :=
      (shortNamesOf sources).filterMap
        (fun sn =>
          match sourcesWithShortName sources sn with
          | [q] => some (sn, qualify q sn)
          | _ => none)
  , ambig_aliases :=
      (shortNamesOf sources).filter
        (fun sn => 2 ≤ (sourcesWithShortName sources sn).length) }

/-! ## Union type context and child contributions (C5) -/

/-- Modelled from the spec: the union(comma) table expression's type context
as the absent compiler builds it.  Per spec sections 3 and 4.5 the union's
result columns carry short (unqualified) names: the children's columns are
merged under their short names, first occurrence fixing the position. -/
def unionTypeContext (childTypeCtxs : List TypeContextRT) : TypeContextRT :=
  { columns :=
      ordDictOfList
        (((childTypeCtxs.map TypeContextRT.columns).join).map
          (fun p => (shortColumnName p.1, p.2)))
  , aggregate := none }

/-- Spec side: the values one child contributes to a union output column:
the child's last column whose short name matches (the source's dict
comprehension lets a later duplicate win), else one null per child row. -/
def childContribution (name : String) (ch : Context) : List Value :=
  match ch.columns.reverse.find? (fun p => shortColumnName p.1 == name) with
  | some p => p.2.values
  | none => List.replicate ch.num_rows Value.null

/-! ## Select-field alias resolution (C7) -/

/-- Modelled from the spec: the compiler's select-field alias resolution
(compiler.py is not in the source tree).  Per spec section 3 a field keeps
its explicit alias; a bare column reference takes the resolved column name;
any other unaliased field takes the positional synthetic name f0_, f1_, ...,
the counter advancing only over synthetic assignments. -/
def resolveAliases : List (Expr × Option String) → Nat → List SelectField
  | [], _ => []
  | (e, some a) :: rest, k => ⟨e, a⟩ :: resolveAliases rest k
  | (Expr.col c ty, none) :: rest, k =>
    ⟨Expr.col c ty, c⟩ :: resolveAliases rest k
  | (e, none) :: rest, k =>
    ⟨e, "f" ++ toString k ++ "_"⟩ :: resolveAliases rest (k + 1)

/-- Alias resolution for a whole select-field list (counter starts at 0). -/
def resolveSelectFields (fields : List (Expr × Option String)) :
    List SelectField :=
  resolveAliases fields 0

/-- Spec side: is this field given a positional synthetic name (unaliased
and not a bare column reference)? -/
def isSynthField : Expr × Option String → Bool
  | (_, some _) => false
  | (Expr.col _ _, none) => false
  | (_, none) => true

/-- Spec side: the output alias the claim assigns to position `i`, phrased
positionally: the explicit alias, else the column name of a bare reference,
else f`k`_ where `k` counts the synthetic fields among the first `i`. -/
def expectedAlias (fields : List (Expr × Option String)) (i : Nat) :
    Option String :=
  match fields.get? i with
  | some (_, some a) => some a
  | some (Expr.col c _, none) => some c
  | some (_, none) =>
    some ("f" ++ toString ((fields.take i).filter isSynthField).length ++ "_")
  | none => none

/-- Spec side: the first-occurrence key sequence of a list of names: the
key order a Python ordered dictionary built from pairs with these keys ends
up with (an existing key keeps its position, a new key is appended). -/
def firstKeys (l : List String) : List String :=
  l.foldl (fun acc k => if acc.any (fun x => x == k) then acc
    else acc ++ [k]) []

/-- The select-field list of the C7 counterexample query
SELECT t.val, t.val FROM t: two bare references to the same column, hence
two select fields whose resolved aliases coincide. -/
def c7dupFields : List (Expr × Option String) :=
  [(Expr.col "t.val" TqType.int, none), (Expr.col "t.val" TqType.int, none)]

/-- The one-row table context the C7 counterexample query runs on. -/
def c7dupCtx : Context :=
  Context.mk 1 [("t.val", Column.mk TqType.int [Value.int 7])] none

/-- The context the code returns for the C7 counterexample: a single output
column, although the query has two select fields. -/
def c7dupResult : Context :=
  Context.mk 1 [("t.val", Column.mk TqType.int [Value.int 7])] none

/-! ## CPython hashing and the group-by dictionary (C3) -/

/-- Interpret an integer as an unsigned 64-bit word (two's complement). -/
def toU64 (n : Int) : Nat := (n % 18446744073709551616).toNat

/-- Interpret an unsigned 64-bit word as a signed 64-bit integer. -/
def fromU64 (u : Nat) : Int :=
  if u < 9223372036854775808 then (u : Int)
  else (u : Int) - 18446744073709551616

/-- CPython hash of a machine-word integer: the value itself, except that
hash(-1) is -2 (-1 is the C-level error sentinel).  In particular
hash(-1) == hash(-2). -/
def pyHashInt (n : Int) : Int := if n = -1 then -2 else n

/-- CPython 2 (64-bit) string hash: x starts at the first byte shifted left
7, each byte folds in as x = (1000003*x) xor byte, then x is xored with the
length; -1 becomes -2. -/
def pyHashStringAux : List Char → Nat → Nat
  | [], x => x
  | c :: t, x =>
    pyHashStringAux t ((1000003 * x) % 18446744073709551616 ^^^ c.toNat)

/-- CPython 2 hash of a string (deterministic; hash randomization is off by
default in CPython 2). -/
def pyHashString (s : String) : Int :=
  match s.data with
  | [] => 0
  | c0 :: _ =>
    let x0 := (c0.toNat <<< 7) % 18446744073709551616
    let x1 := pyHashStringAux s.data x0
    let x2 := x1 ^^^ s.data.length
    let r := fromU64 x2
    if r = -1 then -2 else r

/-- CPython 2 (64-bit) tuple hash accumulator: x = (x xor hash(item)) * mult
per item, with mult advancing by 82520 + 2*len, len counting the remaining
items. -/
def pyHashTupleAux : List Int → Nat → Nat → Nat → Nat
  | [], x, _, _ => x
  | y :: t, x, mult, len1 =>
    pyHashTupleAux t (((x ^^^ toU64 y) * mult) % 18446744073709551616)
      ((mult + 82520 + len1 + len1) % 18446744073709551616) (len1 - 1)

/-- CPython 2 hash of a tuple, given its items' hashes. -/
def pyHashTuple (hs : List Int) : Int :=
  let x := pyHashTupleAux hs 3430008 1000003 (hs.length - 1)
  let x2 := (x + 97531) % 18446744073709551616
  let r := fromU64 x2
  if r = -1 then -2 else r

/-- CPython 2 hash of a raw cell value.  `hash(None)` is derived from the
singleton's address, so it is a parameter `hNone`; booleans hash as their
integer value. -/
def pyHashValue (hNone : Int) : Value → Int
  | .null => hNone
  | .int n => pyHashInt n
  | .bool b => if b then 1 else 0
  | .str s => pyHashString s

/-- The `Context.__hash__` of tinyquery.py (lines 275-279): the hash of the
triple (num_rows, tuple of tuples of column values, aggregate context). -/
def pyHashContext (hNone : Int) : Context → Int
  | .mk n cols agg =>
    pyHashTuple
      [pyHashInt n,
       pyHashTuple
         (cols.map (fun p => pyHashTuple (p.2.values.map (pyHashValue hNone)))),
       match agg with
       | none => hNone
       | some a => pyHashContext hNone a]

/-- CPython dictionary key probing with the broken `Context.__eq__`
(tinyquery.py lines 271-273): the missing parentheses make `__eq__` return a
3-tuple, which is always truthy, so a stored key matches exactly when its
hash equals the probe key's hash. -/
def groupFind (hNone : Int) (d : List (Context × Context)) (k : Context) :
    Option (Context × Context) :=
  d.find? (fun e => pyHashContext hNone e.1 == pyHashContext hNone k)

/-- Replace the (unique) hash-matching entry's group context. -/
def groupUpdate (hNone : Int) (d : List (Context × Context)) (k : Context)
    (g : Context) : List (Context × Context) :=
  d.map
    (fun e =>
      if pyHashContext hNone e.1 == pyHashContext hNone k then (e.1, g) else e)

/-- tinyquery.py `get_group_key` (lines 114-132): a singleton context with
the row's field-group values (from the select context) followed by its
alias-group values (from the alias-group result context). -/
def get_group_key (field_groups alias_groups : List String)
    (select_context alias_group_result_context : Context) (index : Nat) :
    Except String Context := do
  let fcols ← field_groups.mapM
    (fun cn => do
      let col ← colLookup select_context cn
      match col.values.get? index with
      | some v => pure (cn, Column.mk col.type [v])
      | none => Except.error "IndexError: list index out of range")
  let acols ← alias_groups.mapM
    (fun cn => do
      let col ← colLookup alias_group_result_context cn
      match col.values.get? index with
      | some v => pure (cn, Column.mk col.type [v])
      | none => Except.error "IndexError: list index out of range")
  pure (.mk 1 (ordDictOfList (fcols ++ acols)) none)

/-- One iteration of the grouping loop of `evaluate_groups` (tinyquery.py
lines 75-84): compute the row's group key, insert a fresh empty group for an
unseen key, then append the row to its group. -/
def groupStep (hNone : Int) (field_groups alias_group_list : List String)
    (sc arc : Context) (d : List (Context × Context)) (i : Nat) :
    Except String (List (Context × Context)) := do
  let key ← get_group_key field_groups alias_group_list sc arc i
  let d1 ←
    match groupFind hNone d key with
    | some _ => pure d
    | none => do
      let e ← empty_context_from_template sc
      pure (d ++ [(key, e)])
  match groupFind hNone d1 key with
  | some entry => do
    let g ← append_row_to_context sc i entry.2
    pure (groupUpdate hNone d1 key g)
  | none => .error "KeyError: group key vanished"

/-- tinyquery.py `merge_contexts_for_select_fields` (lines 97-112): pick
each named column from the first context, falling back to the second. -/
def merge_contexts_for_select_fields (col_names : List String)
    (context1 context2 : Context) : Except String Context :=
  if context1.num_rows != context2.num_rows then
    .error "AssertionError: row count mismatch"
  else if context1.aggregate_context.isSome
      || context2.aggregate_context.isSome then
    .error "AssertionError: aggregate context present"
  else do
    let cols ← col_names.mapM
      (fun cn =>
        match context1.columns.find? (fun e => e.1 == cn) with
        | some e => Except.ok (cn, e.2)
        | none =>
          match context2.columns.find? (fun e => e.1 == cn) with
          | some e => Except.ok (cn, e.2)
          | none => Except.error ("KeyError: " ++ cn))
    mkContextChecked context1.num_rows (ordDictOfList cols) none

/-- Insertion into an ascending list of strings (Python `sorted` is
ascending lexicographic). -/
def insertSorted (s : String) : List String → List String
  | [] => [s]
  | x :: t =>
    match compare s x with
    | .gt => x :: insertSorted s t
    | _ => s :: x :: t

/-- Python `sorted` over strings. -/
def sortStrings (l : List String) : List String :=
  l.foldr insertSorted []

/-- tinyquery.py `evaluate_groups` (lines 45-95): split the select fields
into group-key fields and aggregate fields, bucket the rows by group key in
a dictionary keyed by singleton contexts, then evaluate the aggregate fields
per group against a two-scope context and collect one output row per
dictionary entry. -/
def evaluate_groups (hNone : Int) (select_fields : List SelectField)
    (field_groups : List String) (alias_groups : List String)
    (select_context : Context) : Except String Context := do
  let alias_group_list := sortStrings alias_groups
  let group_key_select_fields :=
    select_fields.filter (fun f => alias_groups.contains f.alias')
  let aggregate_select_fields :=
    select_fields.filter (fun f => !(alias_groups.contains f.alias'))
  let alias_group_result_context ←
    evaluate_select_fields group_key_select_fields select_context
  let dict ← (List.range select_context.num_rows).foldlM
    (groupStep hNone field_groups alias_group_list select_context
      alias_group_result_context) []
  let result0 ← empty_context_from_select_fields select_fields
  let result_col_names := select_fields.map SelectField.alias'
  dict.foldlM
    (fun res entry => do
      let group_eval_context ←
        mkContextChecked 1 entry.1.columns (some entry.2)
      let garc ←
        evaluate_select_fields aggregate_select_fields group_eval_context
      let merged ←
        merge_contexts_for_select_fields result_col_names garc entry.1
      append_row_to_context merged 0 res)
    result0

/-- Spec side: the raw group-key value tuple of row `i` (the field-group
column values in order). -/
def keyTupleAt (field_groups : List String) (sc : Context) (i : Nat) :
    List Value :=
  field_groups.filterMap
    (fun cn =>
      (sc.columns.find? (fun e => e.1 == cn)).bind
        (fun e => e.2.values.get? i))

/-- Spec side: the number of distinct raw group-key tuples under value
equality. -/
def distinctKeyCount (field_groups : List String) (sc : Context) : Nat :=
  (((List.range sc.num_rows).map (keyTupleAt field_groups sc)).dedup).length

/-- The two-row, one-column select context of the C3 counterexample: a table
whose grouped column holds -1 and -2 (CPython: hash(-1) == hash(-2)). -/
def c3ctx : Context :=
  .mk 2 [("val", Column.mk TqType.int [Value.int (-1), Value.int (-2)])] none

/-- The group key of row 0 of `c3ctx` (value -1). -/
def c3key0 : Context :=
  .mk 1 [("val", Column.mk TqType.int [Value.int (-1)])] none

/-- The group key of row 1 of `c3ctx` (value -2). -/
def c3key1 : Context :=
  .mk 1 [("val", Column.mk TqType.int [Value.int (-2)])] none

/-- The fresh empty group bucket created for the first row of `c3ctx`. -/
def c3empty : Context := .mk 0 [("val", Column.mk TqType.int [])] none

/-- The group bucket after row 0 is appended. -/
def c3group1 : Context :=
  .mk 1 [("val", Column.mk TqType.int [Value.int (-1)])] none

/-- The group bucket after rows 0 and 1 are both appended: the hash collision
puts the -2 row into the -1 group. -/
def c3group2 : Context :=
  .mk 2 [("val", Column.mk TqType.int [Value.int (-1), Value.int (-2)])] none

/-! ## The select pipeline and SELECT * (C8) -/

/-- Typed group set (the GROUP BY information carried by the typed AST):
source-column groups and select-field alias groups. -/
structure GroupSet where
  field_groups : List String
  alias_groups : List String
deriving DecidableEq, Repr

/-- Typed table expression, restricted to the base-table variant the claims
exercise: a table name plus the column names of its type context. -/
inductive TableExpr where
  | table (name : String) (typeCtxNames : List String)
deriving DecidableEq, Repr

/-- Typed select statement (typed_ast.py `Select`, plus the group set the
evaluator dispatches on). -/
structure SelectQ where
  select_fields : List SelectField
  table : TableExpr
  where_expr : Expr
  group_set : Option GroupSet

/-- tinyquery.py `eval_table_Table` (lines 180-187): look the table up in
the table store and build its context under the type context's names. -/
def eval_table_Table (tables : List (String × Table)) (name : String)
    (typeCtxNames : List String) : Except String Context :=
  match tables.lookup name with
  | some t => context_from_table t typeCtxNames
  | none => .error ("KeyError: " ++ name)

/-- tinyquery.py `evaluate_table_expr` dispatch, for the table variant. -/
def evaluate_table_expr (tables : List (String × Table)) :
    TableExpr → Except String Context
  | .table n names => eval_table_Table tables n names

/-- tinyquery.py `evaluate_select` (lines 30-43): evaluate the table
expression, mask it by the WHERE expression's value column, then evaluate
the select fields (grouped or plain). -/
def evaluate_select (tables : List (String × Table)) (hNone : Int)
    (q : SelectQ) : Except String Context := do
  let table_context ← evaluate_table_expr tables q.table
  let mask ← evaluate_expr q.where_expr table_context
  let select_context ← mask_context table_context mask
  match q.group_set with
  | none => evaluate_select_fields q.select_fields select_context
  | some gs =>
    evaluate_groups hNone q.select_fields gs.field_groups gs.alias_groups
      select_context

/-- Modelled from the spec: the compiler's expansion of `SELECT * FROM t`
(compiler.py is not in the source tree).  Per the round-trip property (spec
section 8) and section 4.5, each column of `t` becomes a bare reference to
its qualified column with the table's original column name as output alias;
an absent WHERE clause compiles to the literal true mask. -/
def compileSelectStar (t : Table) : SelectQ :=
  { select_fields :=
      t.columns.map
        (fun p => ⟨Expr.col (qualify t.name p.1) p.2.type, p.1⟩)
  , table := .table t.name (t.columns.map (fun p => qualify t.name p.1))
  , where_expr := .lit (Value.bool true) TqType.bool
  , group_set := none }

theorem foldl_digits_eq_decimalValue (l : List Char) :
    ∀ acc : Int,
      l.foldl (fun acc c => acc * 10 + ((c.toNat : Int) - 48)) acc
        = acc * 10 ^ l.length + decimalValue l := by
  induction l with
  | nil => intro acc; simp [decimalValue]
  | cons c rest ih =>
    intro acc
    simp only [List.foldl_cons, ih, decimalValue, List.length_cons]
    ring

/-- C1 (code_bug evidence): the binary operators of runtime.py do not
propagate null.  Applying the code's own operator functions to a null
operand raises `TypeError` for arithmetic (`None + 1`), and returns a
definite boolean (never null) for comparisons (`None == 1` is `False` and
`None < 1` is `True` in Python 2); columnwise application of `=` over a
column containing a null therefore yields `false` at the null row, where the
claim requires null. -/
theorem c1_binary_ops_do_not_propagate_null :
    py_add Value.null (Value.int 1)
        = Except.error "TypeError: unsupported operand types for +" ∧
    py_eq Value.null (Value.int 1) = Value.bool false ∧
    py_lt Value.null (Value.int 1) = Value.bool true ∧
    List.zipWith py_eq [Value.null, Value.int 5] [Value.int 1, Value.int 5]
        = [Value.bool false, Value.bool true] := by
  refine ⟨rfl, rfl, rfl, rfl⟩

/-- C6 (counterexample): the claim's reserved-word set contains "group", but
the lexer classifies the input word "GROUP" as a plain identifier token with
value "group", because lexer.py's `reserved_words` lists only three words. -/
theorem c6_cex_group_lexes_as_identifier :
    t_ID "GROUP" = ("ID", "group") ∧ "group" ∈ claimedReservedWords := by
  constructor
  · rfl
  · decide

/-- C6 (amended): the lexer lowercases each identifier before classification
and classifies it as a keyword exactly when the lowercased text is in the
source's reserved-word set (select, from, where); any other word lexes as an
`ID` token whose value is the lowercased text. -/
theorem c6_lexer_lowercases_and_classifies (s : String) :
    (t_ID s).2 = pyLower s ∧
    ((t_ID s).1 ≠ "ID" ↔ pyLower s ∈ amendedReservedWords) ∧
    (pyLower s ∉ amendedReservedWords → t_ID s = ("ID", pyLower s)) := by
  by_cases h1 : pyLower s = "select"
  · simp [t_ID, reserved_words, List.lookup, h1, amendedReservedWords]
  by_cases h2 : pyLower s = "from"
  · simp [t_ID, reserved_words, List.lookup, h2, amendedReservedWords]
  by_cases h3 : pyLower s = "where"
  · simp [t_ID, reserved_words, List.lookup, h3, amendedReservedWords]
  · have e1 : (pyLower s == "select") = false := beq_eq_false_iff_ne.mpr h1
    have e2 : (pyLower s == "from") = false := beq_eq_false_iff_ne.mpr h2
    have e3 : (pyLower s == "where") = false := beq_eq_false_iff_ne.mpr h3
    simp [t_ID, reserved_words, List.lookup, e1, e2, e3, amendedReservedWords,
      h1, h2, h3]

/-- C10: for every non-empty all-digit input (what the `t_NUMBER` regex can
match), `int()` succeeds with the denoted integer, so the token value is that
integer and the fallback-to-0 branch is unreachable. -/
theorem c10_number_token_value (s : String)
    (h1 : s.data ≠ []) (h2 : ∀ c ∈ s.data, c.isDigit) :
    pyIntParse s = .ok (decimalValue s.data) ∧
    t_NUMBER s = decimalValue s.data := by
  have hcond : s.data ≠ [] ∧ s.data.all (fun c => c.isDigit) := by
    exact ⟨h1, List.all_eq_true.mpr h2⟩
  have hparse : pyIntParse s = .ok (decimalValue s.data) := by
    unfold pyIntParse
    rw [if_pos hcond, foldl_digits_eq_decimalValue]
    simp
  exact ⟨hparse, by unfold t_NUMBER; rw [hparse]⟩

/-- C10 (witness): the theorem applied to the concrete literal "123". -/
theorem c10_number_token_value_witness :
    pyIntParse "123" = .ok 123 ∧ t_NUMBER "123" = 123 := by
  have h := c10_number_token_value "123" (by decide) (by decide)
  have hv : decimalValue "123".data = 123 := by decide
  rw [hv] at h
  exact h

/-! ## Ordered-dictionary and traversal lemmas -/

theorem exbind_ok {α β : Type} (a : α) (f : α → Except String β) :
    (Except.ok a >>= f) = f a := rfl

theorem exbind_err {α β : Type} (e : String) (f : α → Except String β) :
    ((Except.error e : Except String α) >>= f) = Except.error e := rfl

theorem expure_eq_ok {α : Type} (a : α) :
    (pure a : Except String α) = Except.ok a := rfl

theorem exmap_ok {α β : Type} (g : α → β) (a : α) :
    (g <$> (Except.ok a : Except String α)) = Except.ok (g a) := rfl

theorem exmap_err {α β : Type} (g : α → β) (e : String) :
    (g <$> (Except.error e : Except String α)) = Except.error e := rfl

theorem ordInsert_of_not_mem {α} (d : List (String × α)) (k : String) (v : α)
    (h : ∀ p ∈ d, p.1 ≠ k) : ordInsert d k v = d ++ [(k, v)] := by
  have hc : d.any (fun e => e.1 == k) = false := by
    rw [List.any_eq_false]
    intro p hp
    simp only [beq_iff_eq]
    exact h p hp
  simp [ordInsert, hc]

theorem foldl_ordInsert_append {α} :
    ∀ (l d : List (String × α)),
      (l.map Prod.fst).Nodup →
      (∀ p ∈ d, ∀ q ∈ l, p.1 ≠ q.1) →
      l.foldl (fun m kv => ordInsert m kv.1 kv.2) d = d ++ l := by
  intro l
  induction l with
  | nil => intro d _ _; simp
  | cons kv rest ih =>
    intro d hnd hdisj
    rw [List.map_cons] at hnd
    have hnd' := List.nodup_cons.mp hnd
    simp only [List.foldl_cons]
    have h1 : ordInsert d kv.1 kv.2 = d ++ [(kv.1, kv.2)] := by
      apply ordInsert_of_not_mem
      intro p hp
      exact hdisj p hp kv (by simp)
    rw [h1, ih (d ++ [(kv.1, kv.2)]) hnd'.2]
    · simp
    · intro p hp q hq
      rcases List.mem_append.mp hp with hd | hkv
      · exact hdisj p hd q (List.mem_cons_of_mem _ hq)
      · have hpk : p = (kv.1, kv.2) := by simpa using hkv
        subst hpk
        intro he
        exact hnd'.1 (he ▸ List.mem_map_of_mem Prod.fst hq)

theorem ordDictOfList_eq_self {α} (l : List (String × α))
    (h : (l.map Prod.fst).Nodup) : ordDictOfList l = l := by
  unfold ordDictOfList
  have h2 := foldl_ordInsert_append l [] h (by intro p hp; cases hp)
  simpa using h2

theorem ordInsert_forall_snd {α} {P : α → Prop} {d : List (String × α)}
    {k : String} {v : α} (hd : ∀ e ∈ d, P e.2) (hv : P v) :
    ∀ e ∈ ordInsert d k v, P e.2 := by
  intro e he
  unfold ordInsert at he
  split at he
  · rcases List.mem_map.mp he with ⟨e', he', heq⟩
    by_cases hk : (e'.1 == k) = true
    · rw [if_pos hk] at heq
      rw [← heq]
      exact hv
    · rw [if_neg hk] at heq
      rw [← heq]
      exact hd e' he'
  · rcases List.mem_append.mp he with h1 | h2
    · exact hd e h1
    · have : e = (k, v) := by simpa using h2
      rw [this]
      exact hv

theorem foldl_ordInsert_values {α β} (P : α → Prop) (kf : β → String)
    (vf : β → α) :
    ∀ (l : List β) (d : List (String × α)),
      (∀ e ∈ d, P e.2) → (∀ q ∈ l, P (vf q)) →
      ∀ e ∈ l.foldl (fun m q => ordInsert m (kf q) (vf q)) d, P e.2 := by
  intro l
  induction l with
  | nil => intro d hd _; simpa using hd
  | cons q t ih =>
    intro d hd hl
    simp only [List.foldl_cons]
    exact ih _ (ordInsert_forall_snd hd (hl q (by simp)))
      (fun q' hq' => hl q' (by simp [hq']))

theorem mapM_ok_forall₂ {α β : Type} (f : α → Except String β) :
    ∀ (l : List α) (l' : List β), l.mapM f = .ok l' →
      List.Forall₂ (fun a b => f a = .ok b) l l' := by
  intro l
  induction l with
  | nil =>
    intro l' h
    have : (Except.ok [] : Except String (List β)) = .ok l' := h
    cases this
    exact List.Forall₂.nil
  | cons a t ih =>
    intro l' h
    rw [List.mapM_cons] at h
    cases hf : f a with
    | error e =>
      rw [hf] at h
      rw [exbind_err] at h
      cases h
    | ok b =>
      rw [hf] at h
      rw [exbind_ok] at h
      cases ht : t.mapM f with
      | error e =>
        rw [ht, exbind_err] at h
        cases h
      | ok bs =>
        rw [ht, exbind_ok, expure_eq_ok] at h
        cases h
        exact List.Forall₂.cons hf (ih bs ht)

theorem forall₂_mem_right {α β} {R : α → β → Prop} :
    ∀ {l : List α} {l' : List β}, List.Forall₂ R l l' →
      ∀ b ∈ l', ∃ a ∈ l, R a b := by
  intro l l' h
  induction h with
  | nil => intro b hb; cases hb
  | cons hR _ ih =>
    intro b hb
    rcases List.mem_cons.mp hb with h1 | h2
    · exact ⟨_, by simp, h1 ▸ hR⟩
    · rcases ih b h2 with ⟨a, ha, hr⟩
      exact ⟨a, List.mem_cons_of_mem _ ha, hr⟩

theorem mkContextChecked_ok {n : Int} {cols : List (String × Column)}
    {agg : Option Context} {c : Context}
    (h : mkContextChecked n cols agg = .ok c) :
    c = .mk n.toNat cols agg ∧ ∀ p ∈ cols, (p.2.values.length : Int) = n := by
  unfold mkContextChecked at h
  split at h
  · cases h
    constructor
    · rfl
    · next hcond =>
      intro p hp
      have := List.all_eq_true.mp hcond p hp
      simpa using this
  · simp at h

/-! ## Association-list lookup lemmas -/

theorem lkp_some_of_nodup {α} :
    ∀ (l : List (String × α)) (k : String) (v : α),
      (l.map Prod.fst).Nodup → (k, v) ∈ l → l.lookup k = some v := by
  intro l
  induction l with
  | nil => intro k v _ hm; cases hm
  | cons a t ih =>
    intro k v hnd hm
    rw [List.map_cons] at hnd
    have hnd' := List.nodup_cons.mp hnd
    rcases List.mem_cons.mp hm with h1 | h2
    · rw [← h1]
      simp [List.lookup]
    · have hk : k ∈ t.map Prod.fst := List.mem_map_of_mem Prod.fst h2
      have hne : (k == a.1) = false := by
        rw [beq_eq_false_iff_ne]
        intro he
        exact hnd'.1 (he ▸ hk)
      calc (a :: t).lookup k = t.lookup k := by
            rcases a with ⟨a1, a2⟩
            simp only [List.lookup]
            rw [hne]
        _ = some v := ih k v hnd'.2 h2

theorem lkp_none_of_forall {α} :
    ∀ (l : List (String × α)) (k : String),
      (∀ e ∈ l, e.1 ≠ k) → l.lookup k = none := by
  intro l
  induction l with
  | nil => intro k _; rfl
  | cons a t ih =>
    intro k h
    have hne : (k == a.1) = false := by
      rw [beq_eq_false_iff_ne]
      intro he
      exact h a (by simp) he.symm
    rcases a with ⟨a1, a2⟩
    simp only [List.lookup]
    rw [hne]
    exact ih k (fun e he => h e (List.mem_cons_of_mem _ he))

theorem lkp_some_of_all {α} :
    ∀ (l : List (String × α)) (k : String) (v : α),
      (∃ e ∈ l, e.1 = k) → (∀ e ∈ l, e.1 = k → e.2 = v) →
      l.lookup k = some v := by
  intro l
  induction l with
  | nil => rintro k v ⟨e, he, _⟩ _; cases he
  | cons a t ih =>
    intro k v hex hall
    by_cases hk : a.1 = k
    · have hv := hall a (by simp) hk
      rcases a with ⟨a1, a2⟩
      simp only [List.lookup]
      rw [show (k == a1) = true from beq_iff_eq.mpr hk.symm]
      simpa using hv
    · have hne : (k == a.1) = false := beq_eq_false_iff_ne.mpr
        (fun he => hk he.symm)
      rcases hex with ⟨e, he, hek⟩
      rcases List.mem_cons.mp he with h1 | h2
      · exact absurd (h1 ▸ hek) hk
      · rcases a with ⟨a1, a2⟩
        simp only [List.lookup]
        rw [hne]
        exact ih k v ⟨e, h2, hek⟩
          (fun e' he' => hall e' (List.mem_cons_of_mem _ he'))

/-! ## Name resolution (C4) -/

theorem sourcesWith_mem_source
    {sources : List (String × List (String × TqType))} {name q : String}
    (hq : q ∈ sourcesWithShortName sources name) :
    ∃ s ∈ sources, s.1 = q ∧ ∃ c ∈ s.2, c.1 = name := by
  unfold sourcesWithShortName at hq
  rcases List.mem_map.mp hq with ⟨s, hs, hsq⟩
  have hsmem := List.mem_of_mem_filter hs
  have hP := List.of_mem_filter hs
  rw [List.any_eq_true] at hP
  rcases hP with ⟨c, hc, hcn⟩
  exact ⟨s, hsmem, hsq, c, hc, beq_iff_eq.mp hcn⟩

theorem mem_qualifiedColumns_of_source
    {sources : List (String × List (String × TqType))}
    {s : String × List (String × TqType)} {c : String × TqType}
    (hs : s ∈ sources) (hc : c ∈ s.2) :
    (qualify s.1 c.1, c.2) ∈ qualifiedColumns sources := by
  unfold qualifiedColumns
  rw [List.mem_join]
  refine ⟨s.2.map (fun c => (qualify s.1 c.1, c.2)), ?_, ?_⟩
  · exact List.mem_map_of_mem _ hs
  · exact List.mem_map_of_mem _ hc

theorem mem_shortNames_of_source
    {sources : List (String × List (String × TqType))}
    {s : String × List (String × TqType)} {c : String × TqType}
    (hs : s ∈ sources) (hc : c ∈ s.2) : c.1 ∈ shortNamesOf sources := by
  unfold shortNamesOf
  rw [List.mem_dedup, List.mem_join]
  exact ⟨s.2.map Prod.fst, List.mem_map_of_mem _ hs,
    List.mem_map_of_mem _ hc⟩

theorem aliasesOf_entry
    {sources : List (String × List (String × TqType))}
    {e : String × String}
    (he : e ∈ (shortNamesOf sources).filterMap
      (fun sn =>
        match sourcesWithShortName sources sn with
        | [q] => some (sn, qualify q sn)
        | _ => none)) :
    ∃ q, sourcesWithShortName sources e.1 = [q] ∧ e.2 = qualify q e.1 := by
  rcases List.mem_filterMap.mp he with ⟨sn, _, hf⟩
  rcases hsw : sourcesWithShortName sources sn with _ | ⟨q, rest⟩
  · rw [hsw] at hf; cases hf
  · rcases rest with _ | ⟨q2, rest2⟩
    · rw [hsw] at hf
      cases hf
      exact ⟨q, hsw, rfl⟩
    · rw [hsw] at hf; cases hf

/-- C4: name lookup in a type context built from a set of qualified sources:
a qualified column resolves to itself; a short name present under exactly
one qualifier resolves to the aliased qualified column; a short name present
under two or more qualifiers fails with the CompileError-kind ambiguous
error; a name matching nothing fails with the CompileError-kind not-found
error. -/
theorem c4_name_resolution
    (sources : List (String × List (String × TqType))) (name : String)
    (hqnodup : ((qualifiedColumns sources).map Prod.fst).Nodup) :
    (∀ ty, (name, ty) ∈ qualifiedColumns sources →
      column_ref_for_name (buildTypeContext sources) name = .ok ⟨name, ty⟩) ∧
    (name ∉ (qualifiedColumns sources).map Prod.fst →
      (∀ q, sourcesWithShortName sources name = [q] →
        ∃ ty, (qualify q name, ty) ∈ qualifiedColumns sources ∧
          column_ref_for_name (buildTypeContext sources) name
            = .ok ⟨qualify q name, ty⟩) ∧
      (2 ≤ (sourcesWithShortName sources name).length →
        column_ref_for_name (buildTypeContext sources) name
          = .error ("CompileError: Ambiguous field: " ++ name)) ∧
      (sourcesWithShortName sources name = [] →
        column_ref_for_name (buildTypeContext sources) name
          = .error ("CompileError: Field not found: " ++ name))) := by
  constructor
  · intro ty hm
    unfold column_ref_for_name buildTypeContext
    simp only
    rw [lkp_some_of_nodup (qualifiedColumns sources) name ty hqnodup hm]
  · intro hnot
    have hcols : (qualifiedColumns sources).lookup name = none := by
      apply lkp_none_of_forall
      intro e he hek
      exact hnot (hek ▸ List.mem_map_of_mem Prod.fst he)
    refine ⟨?_, ?_, ?_⟩
    · intro q hsw
      have hq : q ∈ sourcesWithShortName sources name := by rw [hsw]; simp
      rcases sourcesWith_mem_source hq with ⟨s, hs, hsq, c, hc, hcn⟩
      refine ⟨c.2, ?_, ?_⟩
      · have := mem_qualifiedColumns_of_source hs hc
        rwa [hsq, hcn] at this
      · have hqmem : (qualify q name, c.2) ∈ qualifiedColumns sources := by
          have := mem_qualifiedColumns_of_source hs hc
          rwa [hsq, hcn] at this
        have halias :
            (buildTypeContext sources).aliases.lookup name
              = some (qualify q name) := by
          apply lkp_some_of_all
          · refine ⟨(name, qualify q name), ?_, rfl⟩
            apply List.mem_filterMap.mpr
            refine ⟨name, ?_, ?_⟩
            · have := mem_shortNames_of_source hs hc
              rwa [hcn] at this
            · rw [hsw]
          · intro e he hek
            rcases aliasesOf_entry he with ⟨q', hsw', he2⟩
            rw [hek] at hsw'
            rw [hsw'] at hsw
            cases hsw
            rw [he2, hek]
        unfold column_ref_for_name buildTypeContext
        unfold buildTypeContext at halias
        simp only at halias
        simp only [hcols, halias,
          lkp_some_of_nodup (qualifiedColumns sources) (qualify q name) c.2
            hqnodup hqmem]
    · intro hlen
      have halias : (buildTypeContext sources).aliases.lookup name = none := by
        apply lkp_none_of_forall
        intro e he hek
        rcases aliasesOf_entry he with ⟨q', hsw', _⟩
        rw [hek] at hsw'
        rw [hsw'] at hlen
        simp at hlen
      have hambig : (buildTypeContext sources).ambig_aliases.contains name
          = true := by
        have hnonnil : sourcesWithShortName sources name ≠ [] := by
          intro hn
          rw [hn] at hlen
          simp at hlen
        rcases hq : sourcesWithShortName sources name with _ | ⟨q, _⟩
        · exact absurd hq hnonnil
        · have hqm : q ∈ sourcesWithShortName sources name := by
            rw [hq]; simp
          rcases sourcesWith_mem_source hqm with ⟨s, hs, _, c, hc, hcn⟩
          have hshort : name ∈ shortNamesOf sources := by
            have := mem_shortNames_of_source hs hc
            rwa [hcn] at this
          apply List.elem_eq_true_of_mem
          apply List.mem_filter.mpr
          exact ⟨hshort, by simpa using hlen⟩
      unfold column_ref_for_name buildTypeContext
      unfold buildTypeContext at halias hambig
      simp only at halias hambig
      simp only [hcols, halias, hambig, if_true]
    · intro hempty
      have halias : (buildTypeContext sources).aliases.lookup name = none := by
        apply lkp_none_of_forall
        intro e he hek
        rcases aliasesOf_entry he with ⟨q', hsw', _⟩
        rw [hek] at hsw'
        rw [hsw'] at hempty
        cases hempty
      have hambig : (buildTypeContext sources).ambig_aliases.contains name
          = false := by
        rw [← Bool.not_eq_true]
        intro hcontra
        have hmem := List.mem_filter.mp
          (List.mem_of_elem_eq_true hcontra)
        have := hmem.2
        rw [hempty] at this
        simp at this
      unfold column_ref_for_name buildTypeContext
      unfold buildTypeContext at halias hambig
      simp only at halias hambig
      simp only [hcols, halias, hambig, Bool.false_eq_true, if_false]

/-- C4 (witness): the theorem applied to two concrete sources t1(a, c) and
t2(b, c): the qualified name resolves, the unambiguous short name b resolves
to t2.b, the duplicated short name c is ambiguous, and d is not found. -/
theorem c4_name_resolution_witness :
    column_ref_for_name
        (buildTypeContext
          [("t1", [("a", TqType.int), ("c", TqType.int)]),
           ("t2", [("b", TqType.int), ("c", TqType.string)])]) "t1.a"
      = .ok ⟨"t1.a", TqType.int⟩ ∧
    column_ref_for_name
        (buildTypeContext
          [("t1", [("a", TqType.int), ("c", TqType.int)]),
           ("t2", [("b", TqType.int), ("c", TqType.string)])]) "b"
      = .ok ⟨"t2.b", TqType.int⟩ ∧
    column_ref_for_name
        (buildTypeContext
          [("t1", [("a", TqType.int), ("c", TqType.int)]),
           ("t2", [("b", TqType.int), ("c", TqType.string)])]) "c"
      = .error "CompileError: Ambiguous field: c" ∧
    column_ref_for_name
        (buildTypeContext
          [("t1", [("a", TqType.int), ("c", TqType.int)]),
           ("t2", [("b", TqType.int), ("c", TqType.string)])]) "d"
      = .error "CompileError: Field not found: d" := by
  have h1 := c4_name_resolution
    [("t1", [("a", TqType.int), ("c", TqType.int)]),
     ("t2", [("b", TqType.int), ("c", TqType.string)])] "t1.a" (by decide)
  have h2 := c4_name_resolution
    [("t1", [("a", TqType.int), ("c", TqType.int)]),
     ("t2", [("b", TqType.int), ("c", TqType.string)])] "b" (by decide)
  have h3 := c4_name_resolution
    [("t1", [("a", TqType.int), ("c", TqType.int)]),
     ("t2", [("b", TqType.int), ("c", TqType.string)])] "c" (by decide)
  have h4 := c4_name_resolution
    [("t1", [("a", TqType.int), ("c", TqType.int)]),
     ("t2", [("b", TqType.int), ("c", TqType.string)])] "d" (by decide)
  refine ⟨?_, ?_, ?_, ?_⟩
  · exact h1.1 TqType.int (by decide)
  · obtain ⟨ty, hmem, heq⟩ := (h2.2 (by decide)).1 "t2" (by decide)
    have hty : ty = TqType.int := by
      simp [qualifiedColumns, qualify] at hmem
      exact hmem
    rw [hty] at heq
    exact heq
  · exact ((h3.2 (by decide)).2).1 (by decide)
  · exact ((h4.2 (by decide)).2).2 (by decide)

/-! ## Masking lemmas (C2) -/

theorem sumPyFrom_bools :
    ∀ (mask : List Value), mask.all isBoolV = true →
      ∀ acc : Int, sumPyFrom acc mask = .ok (acc + countTrue mask) := by
  intro mask
  induction mask with
  | nil => intro _ acc; simp [sumPyFrom, countTrue]
  | cons v t ih =>
    intro h acc
    rw [List.all_cons] at h
    have hv := (Bool.and_eq_true _ _).mp h
    cases v with
    | bool b =>
      have ht := ih hv.2 (acc + if b then 1 else 0)
      simp only [sumPyFrom, Value.toNum, countTrue]
      rw [ht]
      congr 1
      cases b <;> simp <;> push_cast <;> ring
    | null => simp [isBoolV] at hv
    | int n => simp [isBoolV] at hv
    | str s => simp [isBoolV] at hv

theorem sumPy_bools (mask : List Value) (h : mask.all isBoolV = true) :
    sumPy mask = .ok (countTrue mask) := by
  have h2 := sumPyFrom_bools mask h 0
  simpa [sumPy] using h2

theorem compress_cons (v m : Value) (t mt : List Value) :
    compress (v :: t) (m :: mt)
      = if pyTruthy m then v :: compress t mt else compress t mt := by
  simp only [compress, List.zip_cons_cons, List.filterMap_cons]
  cases hp : pyTruthy m <;> simp [hp]

theorem compress_eq_keepTrue :
    ∀ (values mask : List Value), mask.all isBoolV = true →
      compress values mask = keepTrue values mask := by
  intro values
  induction values with
  | nil =>
    intro mask _
    cases mask <;> rfl
  | cons v t ih =>
    intro mask h
    cases mask with
    | nil => rfl
    | cons m mt =>
      rw [List.all_cons] at h
      have hv := (Bool.and_eq_true _ _).mp h
      have ht := ih mt hv.2
      rw [compress_cons]
      cases m with
      | bool b => cases b <;> simp [pyTruthy, keepTrue, ht]
      | null => simp [isBoolV] at hv
      | int n => simp [isBoolV] at hv
      | str s => simp [isBoolV] at hv

theorem keepTrue_length :
    ∀ (values mask : List Value), values.length = mask.length →
      (keepTrue values mask).length = countTrue mask := by
  intro values
  induction values with
  | nil =>
    intro mask h
    cases mask with
    | nil => rfl
    | cons m mt => simp at h
  | cons v t ih =>
    intro mask h
    cases mask with
    | nil => simp at h
    | cons m mt =>
      have ht := ih mt (by simpa using h)
      simp only [keepTrue, countTrue]
      cases hm : (m == Value.bool true) <;> simp [hm, ht] <;> omega

/-- C2 (counterexample): with a mask containing a null, `mask_context` does
not return a filtered context at all: `sum(mask)` raises `TypeError`, though
the claim requires a context with the null row excluded (here, one row). -/
theorem c2_cex_null_mask_raises :
    countTrue [Value.bool true, Value.null] = 1 ∧
    mask_context
        (Context.mk 2 [("a", Column.mk TqType.int [Value.int 1, Value.int 2])]
          none)
        [Value.bool true, Value.null]
      = Except.error "TypeError: unsupported operand types for + in sum" := by
  exact ⟨rfl, rfl⟩

/-- C2 (amended): for a `WHERE` mask of genuine booleans (no nulls) over the
table context, the filtered context's row count equals the number of rows
whose mask value is true, rows with a false mask value are excluded, and the
kept rows retain their column values and relative order.  (A null mask entry
instead raises `TypeError` in `sum(mask)`, see the counterexample.) -/
theorem c2_where_filter_on_boolean_mask (ctx : Context) (mask : List Value)
    (hagg : ctx.aggregate_context = none)
    (hnames : (ctx.columns.map Prod.fst).Nodup)
    (hlen : ∀ p ∈ ctx.columns, p.2.values.length = mask.length)
    (hbool : mask.all isBoolV = true) :
    mask_context ctx mask =
      .ok (Context.mk (countTrue mask)
        (ctx.columns.map
          (fun p => (p.1, Column.mk p.2.type (keepTrue p.2.values mask))))
        none) := by
  unfold mask_context
  rw [hagg]
  simp only [Option.isSome_none, Bool.false_eq_true, if_false]
  have hmapeq :
      ctx.columns.map
          (fun p => (p.1, Column.mk p.2.type (compress p.2.values mask)))
        = ctx.columns.map
          (fun p => (p.1, Column.mk p.2.type (keepTrue p.2.values mask))) := by
    apply List.map_congr_left
    intro p _
    rw [compress_eq_keepTrue _ _ hbool]
  have hdict :
      ordDictOfList
          (ctx.columns.map
            (fun p => (p.1, Column.mk p.2.type (keepTrue p.2.values mask))))
        = ctx.columns.map
            (fun p => (p.1, Column.mk p.2.type (keepTrue p.2.values mask))) := by
    apply ordDictOfList_eq_self
    simpa [Function.comp] using hnames
  rw [hmapeq, hdict, sumPy_bools mask hbool]
  rw [exbind_ok]
  unfold mkContextChecked
  rw [if_pos]
  · simp
  · rw [List.all_eq_true]
    intro p hp
    rcases List.mem_map.mp hp with ⟨q, hq, hqe⟩
    rw [← hqe]
    simp only [beq_iff_eq, Nat.cast_inj]
    exact keepTrue_length q.2.values mask (hlen q hq)

/-- C2 (witness): the amended theorem applied to a concrete two-column,
three-row context with mask true/false/true. -/
theorem c2_where_filter_witness :
    mask_context
        (Context.mk 3
          [("a", Column.mk TqType.int [Value.int 1, Value.int 2, Value.int 3]),
           ("b", Column.mk TqType.string
              [Value.str "x", Value.str "y", Value.str "z"])]
          none)
        [Value.bool true, Value.bool false, Value.bool true]
      = .ok (Context.mk 2
          [("a", Column.mk TqType.int [Value.int 1, Value.int 3]),
           ("b", Column.mk TqType.string [Value.str "x", Value.str "z"])]
          none) := by
  rw [c2_where_filter_on_boolean_mask
    (Context.mk 3
      [("a", Column.mk TqType.int [Value.int 1, Value.int 2, Value.int 3]),
       ("b", Column.mk TqType.string
          [Value.str "x", Value.str "y", Value.str "z"])]
      none)
    [Value.bool true, Value.bool false, Value.bool true]
    rfl (by decide) (by decide) (by decide)]
  rfl

/-! ## Union concatenation (C5) -/

theorem find?_map_update {α} (k : String) (v : α) (name : String)
    (hne : k ≠ name) :
    ∀ d : List (String × α),
      ((d.map (fun e => if e.1 == k then (k, v) else e)).find?
          (fun e => e.1 == name))
        = d.find? (fun e => e.1 == name) := by
  intro d
  induction d with
  | nil => rfl
  | cons a t ih =>
    rw [List.map_cons]
    by_cases ha : (a.1 == k) = true
    · rw [if_pos ha]
      rw [List.find?_cons, List.find?_cons]
      have h1 : ((k, v).1 == name) = false := by
        simpa [beq_eq_false_iff_ne] using hne
      have h2 : (a.1 == name) = false := by
        rw [beq_eq_false_iff_ne]
        rw [beq_iff_eq] at ha
        rw [ha]
        exact hne
      rw [h1, h2]
      exact ih
    · rw [if_neg ha]
      rw [List.find?_cons, List.find?_cons]
      by_cases han : (a.1 == name) = true
      · rw [han]
      · rw [Bool.not_eq_true] at han
        rw [han]
        exact ih

theorem find?_map_update_self {α} (k : String) (v : α) :
    ∀ d : List (String × α),
      (∃ e ∈ d, e.1 = k) →
      ((d.map (fun e => if e.1 == k then (k, v) else e)).find?
          (fun e => e.1 == k))
        = some (k, v) := by
  intro d
  induction d with
  | nil => rintro ⟨e, he, _⟩; cases he
  | cons a t ih =>
    rintro ⟨e, he, hek⟩
    rw [List.map_cons]
    by_cases ha : (a.1 == k) = true
    · rw [if_pos ha]
      rw [List.find?_cons]
      have h1 : ((k, v).1 == k) = true := by simp
      rw [h1]
    · rw [if_neg ha]
      rw [List.find?_cons]
      rw [Bool.not_eq_true] at ha
      rw [ha]
      apply ih
      rcases List.mem_cons.mp he with h1 | h2
      · rw [h1] at hek
        exact absurd hek (beq_eq_false_iff_ne.mp ha)
      · exact ⟨e, h2, hek⟩

theorem ordInsert_find?_eq {α} (d : List (String × α)) (k : String) (v : α)
    (name : String) :
    (ordInsert d k v).find? (fun e => e.1 == name)
      = if k = name then some (k, v)
        else d.find? (fun e => e.1 == name) := by
  by_cases hk : k = name
  · rw [if_pos hk]
    unfold ordInsert
    by_cases hany : (d.any (fun e => e.1 == k)) = true
    · rw [if_pos hany]
      rw [← hk]
      apply find?_map_update_self
      rw [List.any_eq_true] at hany
      rcases hany with ⟨e, he, hek⟩
      exact ⟨e, he, beq_iff_eq.mp hek⟩
    · rw [if_neg hany]
      rw [List.find?_append]
      have hd : d.find? (fun e => e.1 == name) = none := by
        rw [List.find?_eq_none]
        intro e he
        rw [Bool.not_eq_true, List.any_eq_false] at hany
        have h5 := hany e he
        rw [hk] at h5
        simpa using h5
      rw [hd]
      subst hk
      simp [List.find?]
  · rw [if_neg hk]
    unfold ordInsert
    by_cases hany : (d.any (fun e => e.1 == k)) = true
    · rw [if_pos hany]
      exact find?_map_update k v name hk d
    · rw [if_neg hany]
      rw [List.find?_append]
      cases hd : d.find? (fun e => e.1 == name) with
      | some e => rfl
      | none =>
        simp only [Option.none_or]
        have h6 : ((k, v).1 == name) = false := by
          simpa [beq_eq_false_iff_ne] using hk
        simp [List.find?, h6]

theorem foldl_ordInsert_find? {α β} (kf : β → String) (vf : β → α) :
    ∀ (l : List β) (d : List (String × α)) (name : String),
      ((l.foldl (fun m q => ordInsert m (kf q) (vf q)) d).find?
          (fun e => e.1 == name))
        = match l.reverse.find? (fun q => kf q == name) with
          | some q => some (kf q, vf q)
          | none => d.find? (fun e => e.1 == name) := by
  intro l
  induction l with
  | nil => intro d name; rfl
  | cons q t ih =>
    intro d name
    simp only [List.foldl_cons, List.reverse_cons, List.find?_append]
    rw [ih (ordInsert d (kf q) (vf q)) name]
    cases hf : t.reverse.find? (fun q => kf q == name) with
    | some q' => rfl
    | none =>
      simp only [Option.none_orElse]
      rw [ordInsert_find?_eq]
      cases hq : (kf q == name) with
      | true =>
        rw [beq_iff_eq] at hq
        rw [if_pos hq]
        simp [List.find?, hq]
      | false =>
        rw [if_neg (by simpa [beq_eq_false_iff_ne] using hq)]
        simp [List.find?, hq]

theorem append_partial_eq (src dest : Context) :
    append_partial_context_to_context src dest =
      .mk (dest.num_rows + src.num_rows)
        (dest.columns.map
          (fun p => (p.1, Column.mk p.2.type
            (p.2.values ++ childContribution p.1 src))))
        dest.aggregate_context := by
  unfold append_partial_context_to_context
  congr 1
  apply List.map_congr_left
  intro p _
  have hfold := foldl_ordInsert_find?
    (fun (w : String × Column) => shortColumnName w.1)
    (fun (w : String × Column) => w.2.values) src.columns [] p.1
  rw [hfold]
  unfold childContribution
  cases hf : src.columns.reverse.find?
      (fun w => shortColumnName w.1 == p.1) with
  | some w => rfl
  | none => rfl

theorem ordInsert_map_fst {α} (d : List (String × α)) (k : String) (v : α) :
    (ordInsert d k v).map Prod.fst
      = if d.any (fun e => e.1 == k) then d.map Prod.fst
        else d.map Prod.fst ++ [k] := by
  unfold ordInsert
  cases hany : d.any (fun e => e.1 == k) with
  | true =>
    simp only [if_true, List.map_map]
    apply List.map_congr_left
    intro e _
    by_cases hP : e.1 = k
    · simp [hP]
    · simp [hP]
  | false => simp

theorem foldl_ordInsert_keys_nodup {α β} (kf : β → String) (vf : β → α) :
    ∀ (l : List β) (d : List (String × α)),
      ((d.map Prod.fst).Nodup) →
      (((l.foldl (fun m q => ordInsert m (kf q) (vf q)) d).map
          Prod.fst).Nodup) := by
  intro l
  induction l with
  | nil => intro d hd; simpa using hd
  | cons q t ih =>
    intro d hd
    simp only [List.foldl_cons]
    apply ih
    rw [ordInsert_map_fst]
    cases hany : d.any (fun e => e.1 == kf q) with
    | true => simpa using hd
    | false =>
      simp only [Bool.false_eq_true, if_false]
      rw [← List.concat_eq_append]
      apply List.Nodup.concat
      · intro hmem
        rcases List.mem_map.mp hmem with ⟨e, he, hek⟩
        rw [List.any_eq_false] at hany
        have := hany e he
        rw [hek] at this
        simp at this
      · exact hd

theorem ordDictOfList_keys_nodup {α} (l : List (String × α)) :
    ((ordDictOfList l).map Prod.fst).Nodup := by
  unfold ordDictOfList
  have h := foldl_ordInsert_keys_nodup (fun (e : String × α) => e.1)
    (fun (e : String × α) => e.2) l [] (by simp)
  have heq : (fun (m : List (String × α)) (kv : String × α)
      => ordInsert m kv.1 kv.2)
      = fun m q => ordInsert m q.1 q.2 := rfl
  rw [heq]
  exact h

theorem foldl_ordInsert_keys_subset {α β} (kf : β → String) (vf : β → α) :
    ∀ (l : List β) (d : List (String × α)) (k : String),
      k ∈ (l.foldl (fun m q => ordInsert m (kf q) (vf q)) d).map Prod.fst →
      k ∈ d.map Prod.fst ∨ k ∈ l.map kf := by
  intro l
  induction l with
  | nil => intro d k h; exact Or.inl (by simpa using h)
  | cons q t ih =>
    intro d k h
    simp only [List.foldl_cons] at h
    rcases ih (ordInsert d (kf q) (vf q)) k h with h1 | h2
    · rw [ordInsert_map_fst] at h1
      by_cases hany : d.any (fun e => e.1 == kf q) = true
      · rw [if_pos hany] at h1
        exact Or.inl h1
      · rw [if_neg hany] at h1
        rcases List.mem_append.mp h1 with h3 | h4
        · exact Or.inl h3
        · right
          simp only [List.map_cons, List.mem_cons]
          left
          simpa using h4
    · right
      simp only [List.map_cons, List.mem_cons]
      exact Or.inr h2

theorem ordDictOfList_keys_subset {α} (l : List (String × α)) (k : String)
    (h : k ∈ (ordDictOfList l).map Prod.fst) : k ∈ l.map Prod.fst := by
  unfold ordDictOfList at h
  have h2 := foldl_ordInsert_keys_subset (fun (e : String × α) => e.1)
    (fun (e : String × α) => e.2) l [] k (by exact h)
  rcases h2 with h3 | h4
  · cases h3
  · exact h4

theorem foldl_append_partial (children : List Context) :
    ∀ acc : Context,
      children.foldl (fun d s => append_partial_context_to_context s d) acc
        = .mk (acc.num_rows + (children.map Context.num_rows).sum)
            (acc.columns.map (fun p =>
              (p.1, Column.mk p.2.type
                (p.2.values ++
                  (children.map (fun ch => childContribution p.1 ch)).join))))
            acc.aggregate_context := by
  induction children with
  | nil =>
    intro acc
    rcases acc with ⟨n, cols, agg⟩
    simp only [List.foldl_nil, List.map_nil, List.sum_nil, Nat.add_zero,
      List.join_nil, Context.num_rows, Context.columns,
      Context.aggregate_context]
    congr 1
    rw [List.map_id'' (fun p => by simp) cols]
  | cons ch t ih =>
    intro acc
    simp only [List.foldl_cons]
    rw [ih (append_partial_context_to_context ch acc), append_partial_eq]
    simp only [Context.num_rows, Context.columns, Context.aggregate_context,
      List.map_cons, List.sum_cons, List.join_cons, List.map_map]
    congr 1
    · omega
    · apply List.map_congr_left
      intro p _
      simp [Function.comp, List.append_assoc]

/-- C5: evaluating a comma-union over already-evaluated children: the result
context's row count is the sum of the children's row counts, its column list
is exactly the union type context's (short-named) column list, every
result column name is the short form of some child column name, and each
result column's values are the concatenation, in child order, of each
child's contribution: the child's matching short-named column, or one null
per child row when the child lacks that column. -/
theorem c5_union_concatenation (tcs : List TypeContextRT)
    (children : List Context) :
    ∃ c, eval_table_TableUnion (unionTypeContext tcs) children = .ok c ∧
      c.num_rows = (children.map Context.num_rows).sum ∧
      c.columns.map Prod.fst
        = (unionTypeContext tcs).columns.map Prod.fst ∧
      (∀ n ∈ c.columns.map Prod.fst,
        ∃ q ∈ ((tcs.map TypeContextRT.columns).join).map Prod.fst,
          n = shortColumnName q) ∧
      (∀ p ∈ c.columns,
        p.2.values
          = (children.map (fun ch => childContribution p.1 ch)).join) := by
  have hkeys : (((unionTypeContext tcs).columns.map
      (fun p => (p.1, Column.mk p.2 []))).map Prod.fst).Nodup := by
    have h1 := ordDictOfList_keys_nodup
      ((((tcs.map TypeContextRT.columns).join).map
        (fun p => (shortColumnName p.1, p.2))))
    simpa [unionTypeContext, Function.comp] using h1
  have hinit : empty_context_from_type_context (unionTypeContext tcs)
      = .ok (.mk 0 ((unionTypeContext tcs).columns.map
          (fun p => (p.1, Column.mk p.2 []))) none) := by
    unfold empty_context_from_type_context
    rw [if_neg (by simp [unionTypeContext])]
    rw [ordDictOfList_eq_self _ hkeys]
    unfold mkContextChecked
    rw [if_pos]
    · rfl
    · rw [List.all_eq_true]
      intro p hp
      rcases List.mem_map.mp hp with ⟨q, _, hqe⟩
      rw [← hqe]
      simp
  refine ⟨Context.mk (0 + (children.map Context.num_rows).sum)
      (((unionTypeContext tcs).columns.map
          (fun p => (p.1, Column.mk p.2 []))).map
        (fun p => (p.1, Column.mk p.2.type
          (p.2.values
            ++ (children.map (fun ch => childContribution p.1 ch)).join))))
      none, ?_, ?_, ?_, ?_, ?_⟩
  · unfold eval_table_TableUnion
    rw [hinit, exbind_ok, expure_eq_ok, foldl_append_partial]
    rfl
  · simp [Context.num_rows]
  · simp only [Context.columns, List.map_map]
    apply List.map_congr_left
    intro p _
    rfl
  · intro n hn
    simp only [Context.columns, List.map_map] at hn
    have hn2 : n ∈ (unionTypeContext tcs).columns.map Prod.fst := by
      rcases List.mem_map.mp hn with ⟨q, hq, hqe⟩
      rw [← hqe]
      exact List.mem_map_of_mem _ hq
    have hn2' : n ∈ (ordDictOfList
        (((tcs.map TypeContextRT.columns).join).map
          (fun p => (shortColumnName p.1, p.2)))).map Prod.fst := hn2
    have hn3 := ordDictOfList_keys_subset _ n hn2'
    rw [List.map_map] at hn3
    rcases List.mem_map.mp hn3 with ⟨w, hw, hwe⟩
    exact ⟨w.1, List.mem_map_of_mem _ hw, hwe.symm⟩
  · intro p hp
    simp only [Context.columns, List.map_map] at hp
    rcases List.mem_map.mp hp with ⟨q, hq, hqe⟩
    rw [← hqe]
    simp [Function.comp]

/-! ## Select-field aliases and output columns (C7) -/

theorem resolveAliases_get? :
    ∀ (fields : List (Expr × Option String)) (k i : Nat),
      ((resolveAliases fields k).get? i).map SelectField.alias'
        = match fields.get? i with
          | some (_, some a) => some a
          | some (Expr.col c _, none) => some c
          | some (_, none) =>
            some ("f"
              ++ toString (k + ((fields.take i).filter isSynthField).length)
              ++ "_")
          | none => none := by
  intro fields
  induction fields with
  | nil => intro k i; cases i <;> rfl
  | cons f rest ih =>
    intro k i
    cases i with
    | zero =>
      rcases f with ⟨e, oa⟩
      rcases oa with _ | a
      · cases e with
        | col c ty => simp [resolveAliases, SelectField.alias']
        | lit v ty => simp [resolveAliases, SelectField.alias']
      · simp [resolveAliases, SelectField.alias']
    | succ i' =>
      rcases f with ⟨e, oa⟩
      rcases oa with _ | a
      · cases e with
        | col c ty =>
          have := ih k i'
          simpa [resolveAliases, isSynthField, List.take_succ_cons,
            List.filter_cons] using this
        | lit v ty =>
          have := ih (k + 1) i'
          simp only [resolveAliases, List.get?_cons_succ,
            List.take_succ_cons, List.filter_cons]
          rw [this]
          have harith :
              k + 1 + ((rest.take i').filter isSynthField).length
                = k + (1 + ((rest.take i').filter isSynthField).length) := by
            omega
          simp [isSynthField, harith, Nat.add_comm 1]
      · have := ih k i'
        simpa [resolveAliases, isSynthField, List.take_succ_cons,
          List.filter_cons] using this

theorem resolveAliases_length :
    ∀ (fields : List (Expr × Option String)) (k : Nat),
      (resolveAliases fields k).length = fields.length := by
  intro fields
  induction fields with
  | nil => intro k; rfl
  | cons f rest ih =>
    intro k
    rcases f with ⟨e, oa⟩
    rcases oa with _ | a
    · cases e with
      | col c ty => simp [resolveAliases, ih]
      | lit v ty => simp [resolveAliases, ih]
    · simp [resolveAliases, ih]

theorem forall₂_map_eq {α β γ : Type} {R : α → β → Prop} (g : α → γ)
    (g' : β → γ) (hg : ∀ a b, R a b → g' b = g a) :
    ∀ {l : List α} {l' : List β}, List.Forall₂ R l l' →
      l'.map g' = l.map g := by
  intro l l' h
  induction h with
  | nil => rfl
  | cons hR _ ih => simp [ih, hg _ _ hR]

theorem evaluate_select_field_fst (f : SelectField) (ctx : Context)
    (pr : String × Column) (h : evaluate_select_field f ctx = .ok pr) :
    pr.1 = f.alias' := by
  unfold evaluate_select_field at h
  cases hr : evaluate_expr f.expr ctx with
  | error e => rw [hr, exbind_err] at h; cases h
  | ok rs =>
    rw [hr, exbind_ok, expure_eq_ok] at h
    cases h
    rfl

/-- Inversion of a successful Except bind: the scrutinee succeeded and the
continuation succeeded on its value. -/
theorem bind_ok_elim {α β : Type} {x : Except String α}
    {f : α → Except String β} {b : β} (h : (x >>= f) = .ok b) :
    ∃ a, x = .ok a ∧ f a = .ok b := by
  cases x with
  | error e => rw [exbind_err] at h; cases h
  | ok a => rw [exbind_ok] at h; exact ⟨a, rfl, h⟩

/-- Folding ordered-dictionary insertions maps, on keys, to the
first-occurrence fold of `firstKeys`. -/
theorem foldl_ordInsert_map_fst {α : Type} :
    ∀ (l : List (String × α)) (d : List (String × α)),
      (l.foldl (fun d kv => ordInsert d kv.1 kv.2) d).map Prod.fst
        = (l.map Prod.fst).foldl
            (fun acc k => if acc.any (fun x => x == k) then acc
              else acc ++ [k]) (d.map Prod.fst) := by
  intro l
  induction l with
  | nil => intro d; rfl
  | cons kv t ih =>
    intro d
    simp only [List.foldl_cons, List.map_cons]
    rw [ih]
    congr 1
    rw [ordInsert_map_fst]
    have hEq : (d.map Prod.fst).any (fun x => x == kv.1)
        = d.any (fun e => e.1 == kv.1) := by
      induction d with
      | nil => rfl
      | cons e t2 iht => simp [iht]
    rw [hEq]

/-- The keys of a Python ordered dictionary built from a pair list are the
pair keys with duplicates merged into their first occurrence. -/
theorem ordDictOfList_map_fst {α : Type} (l : List (String × α)) :
    (ordDictOfList l).map Prod.fst = firstKeys (l.map Prod.fst) := by
  unfold ordDictOfList firstKeys
  exact foldl_ordInsert_map_fst l []

/-- On a duplicate-free list disjoint from the accumulator, the
first-occurrence fold appends the whole list. -/
theorem firstKeys_aux_of_disjoint :
    ∀ (l acc : List String), l.Nodup →
      (∀ k ∈ l, acc.any (fun x => x == k) = false) →
      l.foldl (fun acc k => if acc.any (fun x => x == k) then acc
        else acc ++ [k]) acc = acc ++ l := by
  intro l
  induction l with
  | nil => intro acc _ _; simp
  | cons k t ih =>
    intro acc hnd hdisj
    have hk : acc.any (fun x => x == k) = false :=
      hdisj k (List.mem_cons_self _ _)
    have hknotin : k ∉ t := (List.nodup_cons.mp hnd).1
    have hdisj2 : ∀ j ∈ t, (acc ++ [k]).any (fun x => x == j) = false := by
      intro j hj
      rw [List.any_append, hdisj j (List.mem_cons_of_mem _ hj)]
      have hkj : (k == j) = false := by
        rw [beq_eq_false_iff_ne]
        intro he
        exact hknotin (he ▸ hj)
      simp [hkj]
    simp only [List.foldl_cons]
    rw [if_neg (by rw [hk]; exact Bool.false_ne_true)]
    rw [ih (acc ++ [k]) (List.nodup_cons.mp hnd).2 hdisj2]
    simp

/-- On a duplicate-free list, `firstKeys` is the identity. -/
theorem firstKeys_of_nodup (l : List String) (h : l.Nodup) :
    firstKeys l = l := by
  unfold firstKeys
  have haux := firstKeys_aux_of_disjoint l [] h (fun k _ => rfl)
  simpa using haux

/-- A monadic fold over `Except` preserves any property each successful
step preserves. -/
theorem foldlM_preserve {α β : Type} (P : β → Prop)
    (f : β → α → Except String β)
    (hstep : ∀ b a b2, P b → f b a = .ok b2 → P b2) :
    ∀ (l : List α) (b0 res : β), P b0 →
      List.foldlM f b0 l = .ok res → P res := by
  intro l
  induction l with
  | nil =>
    intro b0 res hP h
    have h2 : (Except.ok b0 : Except String β) = .ok res := h
    cases h2
    exact hP
  | cons a t ih =>
    intro b0 res hP h
    rw [List.foldlM_cons] at h
    obtain ⟨b1, h1, h2⟩ := bind_ok_elim h
    exact ih b1 res (hstep b0 a b1 hP h1) h2

/-- `append_row_to_context` keeps the destination's column names (it maps
over the destination's columns in place). -/
theorem append_row_keys {src : Context} {i : Nat} {dest d : Context}
    (h : append_row_to_context src i dest = .ok d) :
    d.columns.map Prod.fst = dest.columns.map Prod.fst := by
  unfold append_row_to_context at h
  obtain ⟨cols, hm, hp⟩ := bind_ok_elim h
  have hp2 : (Except.ok (Context.mk (dest.num_rows + 1) cols
      dest.aggregate_context) : Except String Context) = .ok d := hp
  cases hp2
  have hrel := mapM_ok_forall₂ _ _ _ hm
  simp only [Context.columns]
  refine forall₂_map_eq Prod.fst Prod.fst ?_ hrel
  intro p pr hpr
  obtain ⟨sc, hsc, h2⟩ := bind_ok_elim hpr
  cases hv : sc.values.get? i with
  | some v =>
    rw [hv] at h2
    have h3 : (Except.ok (p.1, Column.mk p.2.type (p.2.values ++ [v]))
        : Except String (String × Column)) = .ok pr := h2
    cases h3
    rfl
  | none => rw [hv] at h2; cases h2

/-- The empty result context built from select fields has the distinct
resolved aliases, in first-occurrence order, as its column names. -/
theorem empty_context_keys {sf : List SelectField} {c0 : Context}
    (h : empty_context_from_select_fields sf = .ok c0) :
    c0.columns.map Prod.fst = firstKeys (sf.map SelectField.alias') := by
  unfold empty_context_from_select_fields at h
  rcases mkContextChecked_ok h with ⟨hc, _⟩
  rw [hc]
  simp only [Context.columns]
  rw [ordDictOfList_map_fst, List.map_map]
  rfl

/-- C7 (counterexample to the original claim): SELECT t.val, t.val FROM t
is a valid query with two select fields whose resolved aliases coincide;
the ordered dictionary inside evaluate_select_fields merges the duplicate
key, so the code returns a single output column, not one per select
field. -/
theorem c7_cex_duplicate_aliases_merge :
    (resolveSelectFields c7dupFields).length = 2 ∧
    evaluate_select_fields (resolveSelectFields c7dupFields) c7dupCtx
      = .ok c7dupResult ∧
    c7dupResult.columns.length = 1 := ⟨rfl, rfl, rfl⟩

/-- C7 (amended): the resolved alias at position `i` is the explicit alias
if given, else the column name for a bare column reference, else the
positional synthetic name f0_, f1_, ... counted over the unaliased
non-reference fields so far; and, with or without GROUP BY, the output
columns are the distinct resolved aliases in first-occurrence order of the
select-field list (the ordered dictionary merges duplicate aliases into
one column), with the source row count on the ungrouped path; when the
resolved aliases are pairwise distinct this is exactly one output column
per select field, in declared order. -/
theorem c7_output_columns (fields : List (Expr × Option String)) :
    (∀ i, ((resolveSelectFields fields).get? i).map SelectField.alias'
        = expectedAlias fields i) ∧
    (∀ (ctx c : Context),
      evaluate_select_fields (resolveSelectFields fields) ctx = .ok c →
      c.columns.map Prod.fst
          = firstKeys ((resolveSelectFields fields).map SelectField.alias')
        ∧ c.num_rows = ctx.num_rows
        ∧ (((resolveSelectFields fields).map SelectField.alias').Nodup →
            c.columns.map Prod.fst
                = (resolveSelectFields fields).map SelectField.alias'
              ∧ c.columns.length = fields.length)) ∧
    (∀ (hNone : Int) (fg ag : List String) (ctx c : Context),
      evaluate_groups hNone (resolveSelectFields fields) fg ag ctx = .ok c →
      c.columns.map Prod.fst
          = firstKeys ((resolveSelectFields fields).map
              SelectField.alias')) := by
  refine ⟨?_, ?_, ?_⟩
  · intro i
    unfold resolveSelectFields expectedAlias
    rw [resolveAliases_get?]
    cases hf : fields.get? i with
    | none => rfl
    | some f =>
      rcases f with ⟨e, oa⟩
      rcases oa with _ | a
      · cases e with
        | col c ty => rfl
        | lit v ty => simp
      · cases e <;> rfl
  · intro ctx c hok
    unfold evaluate_select_fields at hok
    obtain ⟨prs, hm, hok⟩ := bind_ok_elim hok
    have hrel := mapM_ok_forall₂ _ _ _ hm
    have hnames : prs.map Prod.fst
        = (resolveSelectFields fields).map SelectField.alias' :=
      forall₂_map_eq SelectField.alias' Prod.fst
        (fun f pr h => evaluate_select_field_fst f ctx pr h) hrel
    rcases mkContextChecked_ok hok with ⟨hc, _⟩
    rw [hc]
    simp only [Context.columns, Context.num_rows]
    have hkeys : (ordDictOfList prs).map Prod.fst
        = firstKeys ((resolveSelectFields fields).map
            SelectField.alias') := by
      rw [ordDictOfList_map_fst, hnames]
    refine ⟨hkeys, by simp, ?_⟩
    intro hnd
    constructor
    · rw [hkeys, firstKeys_of_nodup _ hnd]
    · have hlen : ((ordDictOfList prs).map Prod.fst).length
          = ((resolveSelectFields fields).map SelectField.alias').length := by
        rw [hkeys, firstKeys_of_nodup _ hnd]
      rw [List.length_map, List.length_map] at hlen
      rw [hlen]
      exact resolveAliases_length fields 0
  · intro hNone fg ag ctx c hok
    unfold evaluate_groups at hok
    obtain ⟨arc, h1, hok⟩ := bind_ok_elim hok
    obtain ⟨dict, h2, hok⟩ := bind_ok_elim hok
    obtain ⟨r0, h3, hok⟩ := bind_ok_elim hok
    have hP0 := empty_context_keys h3
    refine foldlM_preserve
      (fun x => x.columns.map Prod.fst
        = firstKeys ((resolveSelectFields fields).map SelectField.alias'))
      _ ?_ dict r0 c hP0 hok
    intro b a b2 hPb hstepEq
    obtain ⟨gec, hg1, hstepEq⟩ := bind_ok_elim hstepEq
    obtain ⟨garc, hg2, hstepEq⟩ := bind_ok_elim hstepEq
    obtain ⟨merged, hg3, hstepEq⟩ := bind_ok_elim hstepEq
    rw [append_row_keys hstepEq]
    exact hPb

/-- C7 (witness): the amended theorem applied concretely: the synthetic
alias at position 2 of a three-field list; the output columns of that
select over a one-row context (distinct aliases, so one column per field);
and the output columns of a one-field grouped select evaluated with
hash(None) = 0. -/
theorem c7_output_columns_witness :
    ((resolveSelectFields
        [(Expr.lit (Value.int 1) TqType.int, some "x"),
         (Expr.col "t.val" TqType.int, none),
         (Expr.lit (Value.int 2) TqType.int, none)]).get? 2).map
        SelectField.alias' = some "f0_" ∧
    ((Context.mk 1
        [("x", Column.mk TqType.int [Value.int 1]),
         ("t.val", Column.mk TqType.int [Value.int 7]),
         ("f0_", Column.mk TqType.int [Value.int 2])] none).columns.map
        Prod.fst
      = (resolveSelectFields
          [(Expr.lit (Value.int 1) TqType.int, some "x"),
           (Expr.col "t.val" TqType.int, none),
           (Expr.lit (Value.int 2) TqType.int, none)]).map
          SelectField.alias') ∧
    ((Context.mk 1 [("val", Column.mk TqType.int [Value.int 5])]
        none).columns.map Prod.fst
      = firstKeys ((resolveSelectFields
          [(Expr.col "val" TqType.int, none)]).map SelectField.alias')) := by
  refine ⟨?_, ?_, ?_⟩
  · have h := (c7_output_columns
      [(Expr.lit (Value.int 1) TqType.int, some "x"),
       (Expr.col "t.val" TqType.int, none),
       (Expr.lit (Value.int 2) TqType.int, none)]).1 2
    rw [h]
    rfl
  · exact (((c7_output_columns
      [(Expr.lit (Value.int 1) TqType.int, some "x"),
       (Expr.col "t.val" TqType.int, none),
       (Expr.lit (Value.int 2) TqType.int, none)]).2.1
      (Context.mk 1 [("t.val", Column.mk TqType.int [Value.int 7])] none)
      (Context.mk 1
        [("x", Column.mk TqType.int [Value.int 1]),
         ("t.val", Column.mk TqType.int [Value.int 7]),
         ("f0_", Column.mk TqType.int [Value.int 2])] none)
      rfl).2.2 (by decide)).1
  · exact (c7_output_columns [(Expr.col "val" TqType.int, none)]).2.2
      0 ["val"] []
      (Context.mk 1 [("val", Column.mk TqType.int [Value.int 5])] none)
      (Context.mk 1 [("val", Column.mk TqType.int [Value.int 5])] none)
      rfl

/-! ## SELECT * round trip (C8) -/

theorem qualify_right_inj (t : String) : Function.Injective (qualify t) := by
  intro a b h
  unfold qualify at h
  have h2 := congrArg String.data h
  simp only [String.data_append] at h2
  exact String.ext (List.append_cancel_left h2)

theorem find?_qualified (tname : String) :
    ∀ (l : List (String × Column)), (l.map Prod.fst).Nodup →
      ∀ p ∈ l,
        ((l.map (fun q => (qualify tname q.1, q.2))).find?
            (fun e => e.1 == qualify tname p.1))
          = some (qualify tname p.1, p.2) := by
  intro l
  induction l with
  | nil => intro _ p hp; cases hp
  | cons a rest ih =>
    intro hnd p hp
    rw [List.map_cons] at hnd
    have hnd' := List.nodup_cons.mp hnd
    rw [List.map_cons, List.find?_cons]
    rcases List.mem_cons.mp hp with h1 | h2
    · rw [h1]
      have hbeq : ((qualify tname a.1, a.2).1 == qualify tname a.1) = true := by
        simp
      rw [hbeq]
    · have hne : ((qualify tname a.1, a.2).1 == qualify tname p.1) = false := by
        rw [beq_eq_false_iff_ne]
        intro he
        have := qualify_right_inj tname he
        exact hnd'.1 (this ▸ List.mem_map_of_mem Prod.fst h2)
      rw [hne]
      exact ih hnd'.2 p h2

theorem mapM_map_ok {α β γ : Type} (g0 : α → β) (f : β → Except String γ)
    (g : α → γ) :
    ∀ l : List α, (∀ a ∈ l, f (g0 a) = .ok (g a)) →
      (l.map g0).mapM f = .ok (l.map g) := by
  intro l
  induction l with
  | nil => intro _; rfl
  | cons a rest ih =>
    intro h
    rw [List.map_cons, List.mapM_cons, h a (by simp), exbind_ok,
      ih (fun a ha => h a (List.mem_cons_of_mem _ ha)), exbind_ok,
      expure_eq_ok, List.map_cons]

theorem countTrue_replicate_true (n : Nat) :
    countTrue (List.replicate n (Value.bool true)) = n := by
  induction n with
  | zero => rfl
  | succ n ih => simp [List.replicate_succ, countTrue, ih, Nat.add_comm]

theorem compress_replicate_true :
    ∀ (l : List Value) (n : Nat), l.length = n →
      compress l (List.replicate n (Value.bool true)) = l := by
  intro l
  induction l with
  | nil => intro n _; cases n <;> rfl
  | cons v t ih =>
    intro n h
    cases n with
    | zero => simp at h
    | succ n' =>
      rw [List.replicate_succ, compress_cons]
      rw [if_pos (show pyTruthy (Value.bool true) = true from rfl)]
      rw [ih n' (by simpa using h)]

theorem mask_context_true (ctx : Context)
    (hagg : ctx.aggregate_context = none)
    (hnames : (ctx.columns.map Prod.fst).Nodup)
    (hlen : ∀ p ∈ ctx.columns, p.2.values.length = ctx.num_rows) :
    mask_context ctx (List.replicate ctx.num_rows (Value.bool true))
      = .ok (.mk ctx.num_rows ctx.columns none) := by
  unfold mask_context
  rw [hagg]
  simp only [Option.isSome_none, Bool.false_eq_true, if_false]
  have hmap : ctx.columns.map
      (fun p => (p.1, Column.mk p.2.type
        (compress p.2.values (List.replicate ctx.num_rows (Value.bool true)))))
      = ctx.columns := by
    rw [List.map_congr_left (g := id)
      (fun p hp => by
        rw [compress_replicate_true _ _ (hlen p hp)]
        rfl)]
    exact List.map_id ctx.columns
  rw [hmap, ordDictOfList_eq_self _ hnames]
  have hsum : sumPy (List.replicate ctx.num_rows (Value.bool true))
      = .ok (countTrue (List.replicate ctx.num_rows (Value.bool true))) := by
    apply sumPy_bools
    rw [List.all_eq_true]
    intro v hv
    rw [List.eq_of_mem_replicate hv]
    rfl
  rw [hsum, countTrue_replicate_true, exbind_ok]
  unfold mkContextChecked
  rw [if_pos]
  · simp
  · rw [List.all_eq_true]
    intro p hp
    simp [hlen p hp]

/-- C8: evaluating the compiled `SELECT * FROM t` against a store holding
`t` reproduces `t` exactly: the result context has `t`'s column names in
`t`'s original order, each column carrying exactly `t`'s values in original
row order, with `t`'s row count. -/
theorem c8_select_star_round_trip (t : Table) (hNone : Int)
    (hnd : (t.columns.map Prod.fst).Nodup)
    (hlen : ∀ p ∈ t.columns, p.2.values.length = t.num_rows)
    (hne : t.columns ≠ []) :
    evaluate_select [(t.name, t)] hNone (compileSelectStar t)
      = .ok (.mk t.num_rows t.columns none) := by
  have hqnd : ((t.columns.map
      (fun p => (qualify t.name p.1, p.2))).map Prod.fst).Nodup := by
    have h1 : (t.columns.map (fun p => (qualify t.name p.1, p.2))).map Prod.fst
        = (t.columns.map Prod.fst).map (qualify t.name) := by
      simp [List.map_map, Function.comp]
    rw [h1]
    exact hnd.map (qualify_right_inj t.name)
  have htctx : evaluate_table_expr [(t.name, t)] (compileSelectStar t).table
      = .ok (.mk t.num_rows
          (t.columns.map (fun p => (qualify t.name p.1, p.2))) none) := by
    show eval_table_Table [(t.name, t)] t.name
        (t.columns.map (fun p => qualify t.name p.1)) = _
    have hlkp : ([(t.name, t)].lookup t.name) = some t := by
      simp [List.lookup]
    have hred : eval_table_Table [(t.name, t)] t.name
        (t.columns.map (fun p => qualify t.name p.1))
        = context_from_table t (t.columns.map (fun p => qualify t.name p.1))
        := by
      unfold eval_table_Table
      rw [hlkp]
    rw [hred]
    rcases hc : t.columns with _ | ⟨c0, rest⟩
    · exact absurd hc hne
    · unfold context_from_table
      rw [hc]
      show mkContextChecked (c0.2.values.length : Int)
          (ordDictOfList
            (((c0 :: rest).map (fun p => qualify t.name p.1)).zip
              ((c0 :: rest).map Prod.snd))) none
        = Except.ok (Context.mk t.num_rows
            ((c0 :: rest).map (fun p => (qualify t.name p.1, p.2))) none)
      rw [List.zip_map', ordDictOfList_eq_self _ (by rw [← hc]; exact hqnd)]
      unfold mkContextChecked
      rw [if_pos]
      · have hc0 : c0.2.values.length = t.num_rows :=
          hlen c0 (by rw [hc]; simp)
        simp [hc0]
      · rw [List.all_eq_true]
        intro p hp
        rcases List.mem_map.mp hp with ⟨q, hq, hqe⟩
        rw [← hqe]
        have hq' : q ∈ t.columns := by rw [hc]; exact hq
        simp [hlen q hq', hlen c0 (by rw [hc]; simp)]
  have hmask : mask_context
      (Context.mk t.num_rows
        (t.columns.map (fun p => (qualify t.name p.1, p.2))) none)
      (List.replicate t.num_rows (Value.bool true))
      = .ok (.mk t.num_rows
          (t.columns.map (fun p => (qualify t.name p.1, p.2))) none) := by
    have h2 := mask_context_true
      (Context.mk t.num_rows
        (t.columns.map (fun p => (qualify t.name p.1, p.2))) none)
      rfl (by simpa only [Context.columns] using hqnd)
      (by
        intro p hp
        simp only [Context.columns] at hp
        rcases List.mem_map.mp hp with ⟨q, hq, hqe⟩
        rw [← hqe]
        simpa [Context.num_rows] using hlen q hq)
    exact h2
  have hfields : evaluate_select_fields (compileSelectStar t).select_fields
      (Context.mk t.num_rows
        (t.columns.map (fun p => (qualify t.name p.1, p.2))) none)
      = .ok (.mk t.num_rows t.columns none) := by
    unfold evaluate_select_fields
    have hmapm : ((compileSelectStar t).select_fields).mapM
        (fun f => evaluate_select_field f
          (Context.mk t.num_rows
            (t.columns.map (fun p => (qualify t.name p.1, p.2))) none))
        = .ok (t.columns.map
            (fun p => (p.1, Column.mk p.2.type p.2.values))) := by
      show (t.columns.map
          (fun (p : String × Column) =>
            SelectField.mk (Expr.col (qualify t.name p.1) p.2.type)
              p.1)).mapM _ = _
      apply mapM_map_ok
      intro p hp
      unfold evaluate_select_field
      have hcl : colLookup
          (Context.mk t.num_rows
            (t.columns.map
              (fun (q : String × Column) => (qualify t.name q.1, q.2))) none)
          (qualify t.name p.1) = .ok p.2 := by
        unfold colLookup
        simp only [Context.columns]
        rw [find?_qualified t.name t.columns hnd p hp]
      show (do
          let c ← colLookup
            (Context.mk t.num_rows
              (t.columns.map
                (fun (q : String × Column) => (qualify t.name q.1, q.2)))
              none)
            (qualify t.name p.1)
          pure c.values) >>= _ = _
      rw [hcl, exbind_ok, expure_eq_ok, exbind_ok, expure_eq_ok]
      rfl
    rw [hmapm, exbind_ok]
    have hid : t.columns.map (fun p => (p.1, Column.mk p.2.type p.2.values))
        = t.columns :=
      List.map_id'' (fun p => rfl) t.columns
    rw [hid, ordDictOfList_eq_self _ hnd]
    unfold mkContextChecked
    rw [if_pos]
    · simp [Context.num_rows]
    · rw [List.all_eq_true]
      intro p hp
      simp [Context.num_rows, hlen p hp]
  unfold evaluate_select
  rw [htctx, exbind_ok]
  have hwhere : evaluate_expr (compileSelectStar t).where_expr
      (Context.mk t.num_rows
        (t.columns.map (fun p => (qualify t.name p.1, p.2))) none)
      = .ok (List.replicate t.num_rows (Value.bool true)) := rfl
  rw [hwhere, exbind_ok, hmask, exbind_ok]
  exact hfields

/-- C8 (witness): the theorem applied to a concrete two-column, two-row
table. -/
theorem c8_select_star_round_trip_witness :
    evaluate_select
        [("tw", Table.mk "tw" 2
          [("a", Column.mk TqType.int [Value.int 1, Value.int 2]),
           ("b", Column.mk TqType.string [Value.str "x", Value.null])])]
        0
        (compileSelectStar
          (Table.mk "tw" 2
            [("a", Column.mk TqType.int [Value.int 1, Value.int 2]),
             ("b", Column.mk TqType.string [Value.str "x", Value.null])]))
      = .ok (.mk 2
          [("a", Column.mk TqType.int [Value.int 1, Value.int 2]),
           ("b", Column.mk TqType.string [Value.str "x", Value.null])]
          none) := by
  exact c8_select_star_round_trip
    (Table.mk "tw" 2
      [("a", Column.mk TqType.int [Value.int 1, Value.int 2]),
       ("b", Column.mk TqType.string [Value.str "x", Value.null])])
    0 (by decide) (by decide) (by decide)

/-! ## Context invariant (C9) -/

theorem contextWF_of_checked {n : Int} {cols : List (String × Column)}
    (h : ∀ p ∈ cols, (p.2.values.length : Int) = n) :
    contextWF (.mk n.toNat cols none) = true := by
  simp only [contextWF, colsMatch, Context.aggregate_context, Bool.and_true]
  rw [List.all_eq_true]
  intro p hp
  have := h p hp
  simp only [beq_iff_eq]
  omega

theorem colsMatch_iff (c : Context) :
    colsMatch c = true ↔ ∀ p ∈ c.columns, p.2.values.length = c.num_rows := by
  cases c
  simp [colsMatch, List.all_eq_true, Context.columns, Context.num_rows]

/-- C9: every context produced or extended by the evaluator operations (table
scan, masking, select-field evaluation, group-key evaluation context, row
append, union append, the empty-context constructors) has all columns of
exactly `num_rows` values, and its aggregate context, when present, is a
plain context with no nested aggregate context. -/
theorem c9_every_context_well_formed (op : EvalOp) (h : opInputsWF op)
    (c : Context) (hok : applyOp op = .ok c) : contextWF c = true := by
  cases op with
  | scan t names =>
    simp only [applyOp] at hok
    unfold context_from_table at hok
    cases htc : t.columns with
    | nil => rw [htc] at hok; cases hok
    | cons c0 rest =>
      rw [htc] at hok
      have hok2 : mkContextChecked c0.2.values.length
          (ordDictOfList (names.zip ((c0 :: rest).map Prod.snd))) none
          = Except.ok c := hok
      rcases mkContextChecked_ok hok2 with ⟨hc, hlens⟩
      rw [hc]
      exact contextWF_of_checked hlens
  | maskRows ctx mask =>
    simp only [applyOp] at hok
    unfold mask_context at hok
    split at hok
    · cases hok
    · cases hs : sumPy mask with
      | error e => rw [hs] at hok; cases hok
      | ok n =>
        rw [hs] at hok
        rw [exbind_ok] at hok
        rcases mkContextChecked_ok hok with ⟨hc, hlens⟩
        rw [hc]
        exact contextWF_of_checked hlens
  | selectFields fields ctx =>
    simp only [applyOp] at hok
    unfold evaluate_select_fields at hok
    cases hm : fields.mapM (fun f => evaluate_select_field f ctx) with
    | error e => rw [hm] at hok; cases hok
    | ok prs =>
      rw [hm] at hok
      rw [exbind_ok] at hok
      rcases mkContextChecked_ok hok with ⟨hc, hlens⟩
      rw [hc]
      exact contextWF_of_checked hlens
  | groupEval key group =>
    simp only [applyOp] at hok
    rcases mkContextChecked_ok hok with ⟨hc, hlens⟩
    rcases h with ⟨hg, hga⟩
    rcases group with ⟨gn, gcols, gagg⟩
    have hga' : gagg = none := hga
    subst hga'
    rw [hc]
    simp only [contextWF, colsMatch, Context.aggregate_context,
      Option.isNone_none, Bool.and_true]
    rw [Bool.and_eq_true]
    constructor
    · rw [List.all_eq_true]
      intro p hp
      have := hlens p hp
      simp only [beq_iff_eq]
      omega
    · simpa [colsMatch] using hg
  | rowAppend src i dest =>
    simp only [applyOp] at hok
    unfold append_row_to_context at hok
    cases hm : dest.columns.mapM
        (fun p => do
          let sc ← colLookup src p.1
          match sc.values.get? i with
          | some v => pure (p.1, Column.mk p.2.type (p.2.values ++ [v]))
          | none =>
            Except.error "IndexError: list index out of range") with
    | error e => rw [hm] at hok; cases hok
    | ok cols' =>
      rw [hm] at hok
      rw [exbind_ok] at hok
      have hc : c = .mk (dest.num_rows + 1) cols' dest.aggregate_context := by
        cases hok
        rfl
      have hrel := mapM_ok_forall₂ _ _ _ hm
      have hstep : ∀ q ∈ cols', q.2.values.length = dest.num_rows + 1 := by
        intro q hq
        rcases forall₂_mem_right hrel q hq with ⟨p, hp, hf⟩
        cases hcl : colLookup src p.1 with
        | error e => rw [hcl] at hf; cases hf
        | ok sc =>
          rw [hcl] at hf
          rw [exbind_ok] at hf
          cases hg : sc.values.get? i with
          | none => rw [hg] at hf; cases hf
          | some v =>
            rw [hg] at hf
            have hq' : q = (p.1, Column.mk p.2.type (p.2.values ++ [v])) := by
              cases hf
              rfl
            rw [hq']
            have hdw : colsMatch dest = true := by
              have h3 := h
              simp only [opInputsWF, contextWF] at h3
              rw [Bool.and_eq_true] at h3
              exact h3.1
            have := (colsMatch_iff dest).mp hdw p hp
            simp [this]
      rw [hc]
      have hdw2 := h
      simp only [opInputsWF, contextWF] at hdw2
      rw [Bool.and_eq_true] at hdw2
      simp only [contextWF, colsMatch, Context.aggregate_context]
      rw [Bool.and_eq_true]
      constructor
      · rw [List.all_eq_true]
        intro q hq
        simpa using hstep q hq
      · have h2 := hdw2.2
        simp only [colsMatch, Context.aggregate_context] at h2
        exact h2
  | unionAppend src dest =>
    rcases h with ⟨hsrc, hdest⟩
    have hc : c = append_partial_context_to_context src dest := by
      cases hok
      rfl
    rw [hc]
    have hdest2 := hdest
    simp only [contextWF] at hdest2
    rw [Bool.and_eq_true] at hdest2
    unfold append_partial_context_to_context
    simp only [contextWF, colsMatch, Context.aggregate_context]
    rw [Bool.and_eq_true]
    constructor
    · rw [List.all_eq_true]
      intro q hq
      rcases List.mem_map.mp hq with ⟨p, hp, hpe⟩
      rw [← hpe]
      have hplen : p.2.values.length = dest.num_rows := by
        have h4 := hdest
        simp only [contextWF] at h4
        rw [Bool.and_eq_true] at h4
        exact (colsMatch_iff dest).mp h4.1 p hp
      have hcontrib :
          (match
              (src.columns.foldl
                  (fun (m : List (String × List Value)) (w : String × Column)
                    => ordInsert m (shortColumnName w.1) w.2.values)
                  []).find?
                (fun (e : String × List Value) => e.1 == p.1) with
            | some e => e.2
            | none => List.replicate src.num_rows Value.null).length
            = src.num_rows := by
        cases hfind : (src.columns.foldl
            (fun (m : List (String × List Value)) (w : String × Column)
              => ordInsert m (shortColumnName w.1) w.2.values)
            []).find? (fun (e : String × List Value) => e.1 == p.1) with
        | none => simp
        | some e =>
          have hmem := List.mem_of_find?_eq_some hfind
          have hall := foldl_ordInsert_values
            (fun (vs : List Value) => vs.length = src.num_rows)
            (fun (w : String × Column) => shortColumnName w.1)
            (fun (w : String × Column) => w.2.values) src.columns []
            (by intro e' he'; cases he')
            (fun w hw => (colsMatch_iff src).mp hsrc w hw)
          simpa using hall e hmem
      simp only [beq_iff_eq, List.length_append]
      rw [hplen, hcontrib]
    · have h2 := hdest2.2
      simp only [colsMatch, Context.aggregate_context] at h2
      exact h2
  | emptyFromTemplate ctx =>
    simp only [applyOp] at hok
    unfold empty_context_from_template at hok
    rcases mkContextChecked_ok hok with ⟨hc, hlens⟩
    rw [hc]
    exact contextWF_of_checked hlens
  | emptyFromSelectFields fields =>
    simp only [applyOp] at hok
    unfold empty_context_from_select_fields at hok
    rcases mkContextChecked_ok hok with ⟨hc, hlens⟩
    rw [hc]
    exact contextWF_of_checked hlens
  | emptyFromTypeContext tc =>
    simp only [applyOp] at hok
    unfold empty_context_from_type_context at hok
    split at hok
    · cases hok
    · rcases mkContextChecked_ok hok with ⟨hc, hlens⟩
      rw [hc]
      exact contextWF_of_checked hlens

/-! ## Group-by key collision (C3) -/

theorem expure_bind {α β : Type} (a : α) (f : α → Except String β) :
    ((pure a : Except String α) >>= f) = f a := rfl

theorem c3_hash_eq (h : Int) :
    pyHashContext h c3key0 = pyHashContext h c3key1 := by
  show pyHashTuple
      [pyHashInt 1, pyHashTuple [pyHashTuple [pyHashInt (-1)]], h]
    = pyHashTuple
      [pyHashInt 1, pyHashTuple [pyHashTuple [pyHashInt (-2)]], h]
  rw [show (pyHashInt (-1) : Int) = pyHashInt (-2) from rfl]

theorem c3_beq01 (h : Int) :
    (pyHashContext h c3key0 == pyHashContext h c3key1) = true := by
  rw [c3_hash_eq h]
  exact beq_self_eq_true _

theorem groupFind_single_self (h : Int) (k g : Context) :
    groupFind h [(k, g)] k = some (k, g) := by
  unfold groupFind
  simp [List.find?]

theorem groupUpdate_single_self (h : Int) (k g0 g : Context) :
    groupUpdate h [(k, g0)] k g = [(k, g)] := by
  unfold groupUpdate
  simp

theorem c3_find_01 (h : Int) (g : Context) :
    groupFind h [(c3key0, g)] c3key1 = some (c3key0, g) := by
  unfold groupFind
  exact List.find?_cons_of_pos _ (c3_beq01 h)

theorem c3_update_01 (h : Int) (g0 g : Context) :
    groupUpdate h [(c3key0, g0)] c3key1 g = [(c3key0, g)] := by
  unfold groupUpdate
  show (if (pyHashContext h c3key0 == pyHashContext h c3key1) = true
      then (c3key0, g) else (c3key0, g0)) :: [] = [(c3key0, g)]
  rw [if_pos (c3_beq01 h)]

theorem c3_step0 (h : Int) :
    groupStep h ["val"] [] c3ctx (Context.mk 2 [] none) [] 0
      = .ok [(c3key0, c3group1)] := by
  unfold groupStep
  rw [show get_group_key ["val"] [] c3ctx (Context.mk 2 [] none) 0
      = Except.ok c3key0 from rfl]
  rw [exbind_ok]
  rw [show groupFind h [] c3key0 = none from rfl]
  rw [show empty_context_from_template c3ctx = Except.ok c3empty from rfl]
  dsimp only
  rw [exbind_ok c3empty]
  rw [expure_bind]
  rw [List.nil_append]
  rw [groupFind_single_self h c3key0 c3empty]
  show (append_row_to_context c3ctx 0 c3empty >>=
      fun g => pure (groupUpdate h [(c3key0, c3empty)] c3key0 g))
    = Except.ok [(c3key0, c3group1)]
  rw [show append_row_to_context c3ctx 0 c3empty = Except.ok c3group1
    from rfl]
  rw [exbind_ok c3group1]
  rw [groupUpdate_single_self h c3key0 c3empty c3group1]
  rfl

theorem c3_step1 (h : Int) :
    groupStep h ["val"] [] c3ctx (Context.mk 2 [] none)
        [(c3key0, c3group1)] 1
      = .ok [(c3key0, c3group2)] := by
  unfold groupStep
  rw [show get_group_key ["val"] [] c3ctx (Context.mk 2 [] none) 1
      = Except.ok c3key1 from rfl]
  rw [exbind_ok]
  rw [c3_find_01 h c3group1]
  dsimp only
  rw [expure_bind]
  rw [c3_find_01 h c3group1]
  show (append_row_to_context c3ctx 1 c3group1 >>=
      fun g => pure (groupUpdate h [(c3key0, c3group1)] c3key1 g))
    = Except.ok [(c3key0, c3group2)]
  rw [show append_row_to_context c3ctx 1 c3group1 = Except.ok c3group2
    from rfl]
  rw [exbind_ok c3group2]
  rw [c3_update_01 h c3group1 c3group2]
  rfl

theorem c3_fold (h : Int) :
    (List.range 2).foldlM
        (groupStep h ["val"] [] c3ctx (Context.mk 2 [] none)) []
      = .ok [(c3key0, c3group2)] := by
  rw [show List.range 2 = [0, 1] from rfl]
  rw [List.foldlM_cons, c3_step0 h, exbind_ok, List.foldlM_cons, c3_step1 h,
    exbind_ok, List.foldlM_nil, expure_eq_ok]

/-- C3 (code_bug evidence): grouping `c3ctx` by its `val` column, whose two
rows hold the distinct values -1 and -2, produces a single output row for
every possible `hash(None)`, although there are two distinct raw group-key
tuples under value equality.  CPython hashes -1 and -2 alike, and the
parenthesization slip in `Context.__eq__` (tinyquery.py lines 271-273) makes
it return an always-truthy tuple, so dictionary key equality degenerates to
hash equality and the two groups are merged. -/
theorem c3_group_by_merges_hash_colliding_keys :
    distinctKeyCount ["val"] c3ctx = 2 ∧
    ∀ hNone : Int,
      evaluate_groups hNone [⟨Expr.col "val" TqType.int, "val"⟩] ["val"] []
          c3ctx
        = .ok (Context.mk 1 [("val", Column.mk TqType.int [Value.int (-1)])]
            none) := by
  constructor
  · decide
  · intro h
    unfold evaluate_groups
    dsimp only
    rw [show List.filter (fun f => List.contains ([] : List String) f.alias')
        [(⟨Expr.col "val" TqType.int, "val"⟩ : SelectField)] = [] from rfl]
    rw [show List.filter
          (fun f => !List.contains ([] : List String) f.alias')
        [(⟨Expr.col "val" TqType.int, "val"⟩ : SelectField)]
        = [(⟨Expr.col "val" TqType.int, "val"⟩ : SelectField)] from rfl]
    rw [show evaluate_select_fields [] c3ctx
        = Except.ok (Context.mk 2 [] none) from rfl]
    rw [exbind_ok]
    rw [show sortStrings ([] : List String) = ([] : List String) from rfl]
    rw [show List.range c3ctx.num_rows = [0, 1] from rfl,
      show ([0, 1] : List Nat) = List.range 2 from rfl]
    rw [c3_fold h]
    rw [exbind_ok]
    rw [show empty_context_from_select_fields
        [(⟨Expr.col "val" TqType.int, "val"⟩ : SelectField)]
        = Except.ok (Context.mk 0 [("val", Column.mk TqType.int [])] none)
        from rfl]
    rw [exbind_ok]
    rfl

/-- C9 (witness): the invariant theorem applied to the concrete group
evaluation context built from a one-row key and a two-row group. -/
theorem c9_every_context_well_formed_witness :
    contextWF
      (Context.mk 1 [("val", Column.mk TqType.int [Value.int 7])]
        (some (Context.mk 2
          [("val", Column.mk TqType.int [Value.int 1, Value.int 2])] none)))
      = true := by
  exact c9_every_context_well_formed
    (EvalOp.groupEval
      (Context.mk 1 [("val", Column.mk TqType.int [Value.int 7])] none)
      (Context.mk 2 [("val", Column.mk TqType.int [Value.int 1, Value.int 2])]
        none))
    ⟨by decide, rfl⟩ _ rfl

end TinyQuery
